import Mathlib

/-!
Verification of the language-intelligence core of the `editor` repository:
the LSP transport framing (`src/lsp.rs`), the response registry and id
allocator (`src/lsp.rs`), the completion state machine (`src/completion.rs`)
and the diagnostics runner (`src/diagnostic.rs`), shallowly embedded in Lean.

Machine strings are modelled as `List Char` (Rust `String` is a sequence of
Unicode scalar values, which is exactly what `Char` carries); byte streams are
modelled as `List Nat` with every element below 256.  JSON values follow
`serde_json::Value` with numbers restricted to integers (the float side of
`serde_json::Number` is binary floating point and out of scope of the shallow
embedding), and object maps are rendered as association lists in map order
(`serde_json`'s default `Map` is a `BTreeMap`, so a real `Value` always has
strictly sorted, duplicate-free keys; the well-formedness predicate `Value.wf`
states that side condition).
-/

namespace Editor

/-! ## Generic helpers: decimal digits, splitting, substring replacement -/

/-- The decimal digits of `n`, most significant first, as digit values
(each `< 10`).  Written with a fuel argument so that it is structural and
computes by `decide`; `fuel = n` always suffices. -/
def natDigsGo : Nat → Nat → List Nat
  | _, 0 => [0]
  | 0, n => [n % 10]
  | f + 1, n => if n < 10 then [n] else natDigsGo f (n / 10) ++ [n % 10]

/-- Decimal digit values of `n`, most significant first. -/
def natDigs (n : Nat) : List Nat := natDigsGo n n

/-- Fold a digit-value list back into a number (`digitsVal [1,2,3] = 123`). -/
def digitsVal (ds : List Nat) : Nat := ds.foldl (fun acc d => acc * 10 + d) 0

/-- The ASCII character of one decimal digit value. -/
def digChar (d : Nat) : Char := Char.ofNat (48 + d)

/-- Decimal character rendering of a natural number, as Rust's integer
`Display` prints it. -/
def natChars (n : Nat) : List Char := (natDigs n).map digChar

/-- Decimal character rendering of an integer: optional minus sign, then
digits — the output shape of `itoa` used by `serde_json` for `i64`. -/
def intChars (i : Int) : List Char :=
  (if i < 0 then ['-'] else []) ++ natChars i.natAbs

/-- `dropPre pat s`: when `pat` is a leading run of `s`, the remainder of `s`
after it, else `none` (the list form of Rust's `str::strip_prefix`). -/
def dropPre : List Nat → List Nat → Option (List Nat)
  | [], s => some s
  | _ :: _, [] => none
  | p :: ps, c :: cs => if p = c then dropPre ps cs else none

/-- Character-list form of `dropPre`. -/
def dropPreC : List Char → List Char → Option (List Char)
  | [], s => some s
  | _ :: _, [] => none
  | p :: ps, c :: cs => if p = c then dropPreC ps cs else none

/-- One pass of Rust `String::replace`, with a fuel bound (`fuel = s.length`
suffices for a non-empty pattern): at each position, a leading occurrence of
`pat` is replaced by `rep` and skipped, otherwise one character is copied. -/
def replaceAllGo (pat rep : List Char) : Nat → List Char → List Char
  | 0, s => s
  | _ + 1, [] => []
  | f + 1, c :: cs =>
    match dropPreC pat (c :: cs) with
    | some rest => rep ++ replaceAllGo pat rep f rest
    | none => c :: replaceAllGo pat rep f cs

/-- Rust `String::replace(pat, rep)` for a non-empty pattern: every
non-overlapping occurrence of `pat`, scanned left to right, becomes `rep`. -/
def replaceAll (s pat rep : List Char) : List Char :=
  replaceAllGo pat rep s.length s

/-! ## The JSON data model (`serde_json::Value`)

Numbers are restricted to integers (`serde_json::Number`'s float arm is IEEE
binary floating point, outside the shallow embedding); strings are Unicode
scalar sequences; objects are association lists carrying the `BTreeMap`
entries in map order. -/

inductive Value where
  | null
  | bool (b : Bool)
  | num (i : Int)
  | str (s : List Char)
  | arr (elems : List Value)
  | obj (fields : List (List Char × Value))

/-- `Value::get(key)` on an object: `BTreeMap` lookup (an object holds at most
one entry per key, so first-match association lookup is exact). -/
def Value.getKey : Value → List Char → Option Value
  | .obj fields, k => (fields.find? (fun f => f.1 = k)).map (·.2)
  | _, _ => none

/-- The `json["key"]` index operator: like `get`, but `Null` when absent. -/
def Value.atKey (v : Value) (k : List Char) : Value := (v.getKey k).getD .null

/-- `Value::as_array`. -/
def Value.asArr : Value → Option (List Value)
  | .arr es => some es
  | _ => none

/-- `Value::as_str`. -/
def Value.asStr : Value → Option (List Char)
  | .str s => some s
  | _ => none

/-- `Value::as_u64`: a non-negative integer number. -/
def Value.asU64 : Value → Option Nat
  | .num i => if 0 ≤ i then some i.toNat else none
  | _ => none

/-- `Value::as_i64`. -/
def Value.asI64 : Value → Option Int
  | .num i => some i
  | _ => none

/-- Strict key order on object keys: Rust `String` order (byte-wise on UTF-8,
which coincides with lexicographic order on the scalar-value sequence). -/
def keyLt : List Char → List Char → Bool
  | [], [] => false
  | [], _ :: _ => true
  | _ :: _, [] => false
  | a :: as, b :: bs => a < b || (a = b && keyLt as bs)

mutual
/-- The values `serde_json` actually constructs: every object's keys are
strictly sorted (hence duplicate-free), at every nesting level — the
`BTreeMap` invariant of `serde_json::Map`. -/
def Value.wf : Value → Bool
  | .null | .bool _ | .num _ | .str _ => true
  | .arr es => Value.wfList es
  | .obj fields => Value.sortedKeys fields && Value.wfFields fields

/-- `wf` on every element of an array. -/
def Value.wfList : List Value → Bool
  | [] => true
  | e :: es => Value.wf e && Value.wfList es

/-- `wf` on every field value of an object. -/
def Value.wfFields : List (List Char × Value) → Bool
  | [] => true
  | f :: fs => Value.wf f.2 && Value.wfFields fs

/-- Strict sortedness of an object's keys. -/
def Value.sortedKeys : List (List Char × Value) → Bool
  | [] => true
  | [_] => true
  | a :: b :: fs => keyLt a.1 b.1 && Value.sortedKeys (b :: fs)
end

/-! ## The completion state machine (`src/completion.rs`) -/

/-- `CompletionItem` (completion.rs:4-10). -/
structure CompletionItem where
  label : List Char
  detail : Option (List Char)
  kind : List Char
  insert_text : List Char
  raw : Value

/-- `CompletionState` (completion.rs:12-20).  The Rust field `prefix` is named
`pfx` here (`prefix` is not usable as a Lean identifier); `scroll` is `u16` in
the source and only ever grows by 10 or shrinks saturating, far from 2^16 in
any real session, so it is carried as `Nat`. -/
structure CompletionState where
  items : List CompletionItem
  selected : Nat
  pfx : List Char
  request_id : Option Int
  doc : Option (List Char)
  scroll : Nat
  resolve_id : Option (Int × Nat)

namespace CompletionState

/-- `CompletionState::new` (completion.rs:23-33). -/
def new : CompletionState :=
  { items := [], selected := 0, pfx := [], request_id := none,
    doc := none, scroll := 0, resolve_id := none }

/-- `CompletionState::clear` (completion.rs:35-42).  Note `scroll` is left
untouched by the source. -/
def clear (s : CompletionState) : CompletionState :=
  { s with items := [], selected := 0, pfx := [], request_id := none,
           doc := none, resolve_id := none }

/-- `CompletionState::is_active` (completion.rs:44-46). -/
def is_active (s : CompletionState) : Bool := !s.items.isEmpty

/-- `CompletionState::move_down` (completion.rs:48-54). -/
def move_down (s : CompletionState) : CompletionState :=
  if s.items.isEmpty then s
  else { s with selected := (s.selected + 1) % s.items.length,
                doc := none, scroll := 0 }

/-- `CompletionState::move_up` (completion.rs:56-66). -/
def move_up (s : CompletionState) : CompletionState :=
  if s.items.isEmpty then s
  else { s with
          selected := if s.selected = 0 then s.items.length - 1 else s.selected - 1,
          doc := none, scroll := 0 }

/-- `CompletionState::selected_item` (completion.rs:76-78). -/
def selected_item (s : CompletionState) : Option CompletionItem :=
  s.items.get? s.selected

/-- Lowercasing as used by the filter.  Rust `str::to_lowercase` is modelled
characterwise by `Char.toLower` (exact on ASCII; the full Unicode one-to-many
case mapping is outside the embedding). -/
def lowerStr (s : List Char) : List Char := s.map Char.toLower

/-- Rust `str::contains(needle)`: some contiguous run of `hay` equals
`needle`. -/
def strContains : List Char → List Char → Bool
  | [], needle => needle.isEmpty
  | c :: t, needle => needle.isPrefixOf (c :: t) || strContains t needle

/-- The per-item predicate of `CompletionState::filter`'s `retain`
(completion.rs:83-86): label or insert text contains the lowercased pattern,
case-insensitively. -/
def keepItem (lower : List Char) (item : CompletionItem) : Bool :=
  strContains (CompletionState.lowerStr item.label) lower ||
    strContains (CompletionState.lowerStr item.insert_text) lower

/-- `CompletionState::filter` (completion.rs:80-92): store the new typed
run, retain matching items; an empty result collapses via `clear`, otherwise
the selection is clamped to the last valid index. -/
def filter (s : CompletionState) (p : List Char) : CompletionState :=
  let lower := lowerStr p
  let kept := s.items.filter (keepItem lower)
  let s1 := { s with pfx := p, items := kept }
  if kept.isEmpty then s1.clear
  else { s1 with selected := min s1.selected (kept.length - 1) }

end CompletionState

/-- `parse_completion_kind` (completion.rs:95-121). -/
def parse_completion_kind (kind_num : Nat) : List Char :=
  match kind_num with
  | 1 => ['t','x','t'] | 2 => ['m','e','t','h'] | 3 => ['f','n']
  | 4 => ['c','t','o','r'] | 5 => ['f','i','e','l','d'] | 6 => ['v','a','r']
  | 7 => ['c','l','a','s','s'] | 8 => ['i','f','a','c','e'] | 9 => ['m','o','d']
  | 10 => ['p','r','o','p'] | 11 => ['u','n','i','t'] | 12 => ['v','a','l']
  | 13 => ['e','n','u','m'] | 14 => ['k','w'] | 15 => ['s','n','i','p']
  | 16 => ['c','o','l','o','r'] | 17 => ['f','i','l','e']
  | 21 => ['c','o','n','s','t'] | 22 => ['s','t','r','u','c','t']
  | 23 => ['e','v','e','n','t'] | 24 => ['o','p'] | 25 => ['t','y','p','e']
  | _ => ['?']

/-- The insert-text of one raw item (completion.rs:147-159): `insertText`,
else `textEdit.newText`, else the label, with the protocol placeholder and
tab-stop markers stripped by the source's three `replace` calls. -/
def itemInsertText (item : Value) (label : List Char) : List Char :=
  let base :=
    ((item.getKey ("insertText".toList)).bind Value.asStr).getD
      ((((item.getKey ("textEdit".toList)).bind
          (fun te => te.getKey ("newText".toList))).bind Value.asStr).getD label)
  replaceAll
    (replaceAll (replaceAll base ("$0".toList) [])
      ("${0:()}".toList) ("()".toList))
    ("$1".toList) []

/-- One raw item to a `CompletionItem` (the `filter_map` body of
`parse_completions`, completion.rs:139-167). -/
def parseOneCompletion (item : Value) : Option CompletionItem := do
  let label ← (item.getKey ("label".toList)).bind Value.asStr
  let detail := (item.getKey ("detail".toList)).bind Value.asStr
  let kind_num := ((item.getKey ("kind".toList)).bind Value.asU64).getD 0
  some { label := label, detail := detail,
         kind := parse_completion_kind kind_num,
         insert_text := itemInsertText item label, raw := item }

/-- `parse_completions` (completion.rs:123-173): a bare `result` array or a
`result.items` array, `filter_map`ped through `parseOneCompletion`. -/
def parse_completions (response : Value) : List CompletionItem :=
  let raw_items :=
    match (response.getKey ("result".toList)).bind Value.asArr with
    | some a => some a
    | none =>
        ((response.getKey ("result".toList)).bind
          (fun r => r.getKey ("items".toList))).bind Value.asArr
  match raw_items with
  | none => []
  | some items => items.filterMap parseOneCompletion

/-- `parse_resolve_doc` (completion.rs:175-186). -/
def parse_resolve_doc (response : Value) : Option (List Char) :=
  ((response.getKey ("result".toList)).bind
    (fun r => r.getKey ("documentation".toList))).bind
    (fun d =>
      match d.asStr with
      | some s => some s
      | none => (d.getKey ("value".toList)).bind Value.asStr)

/-- Modelled from the spec: the integration-loop step that folds an arriving
resolve reply into the completion state is not under `src/` (only
`CompletionState` and the parsers are); per §4.3, "an arriving resolve reply
is applied only if its tag still equals the current selection — otherwise
discarded".  The tag is the stored `(resolve id, selection-index-at-request-
time)` pair `resolve_id`. -/
def applyResolveReply (s : CompletionState) (replyId : Int) (docText : List Char) :
    CompletionState :=
  match s.resolve_id with
  | some (rid, idx) =>
      if rid = replyId ∧ idx = s.selected then
        { s with doc := some docText, resolve_id := none }
      else s
  | none => s

/-- Modelled from the spec: the apply-completion buffer mutation is not under
`src/`; per §4.3, applying "delete[s] exactly `len(prefix)` characters before
the cursor, insert[s] the item's insert-text …, advance[s] the cursor by the
inserted length".  The line is a scalar-value sequence with the cursor an
index into it. -/
def applyCompletionEdit (line : List Char) (cursor : Nat) (pfx insertText : List Char) :
    List Char × Nat :=
  let deleted := cursor - pfx.length
  (line.take deleted ++ insertText ++ line.drop cursor,
   deleted + insertText.length)

/-! ## JSON text: the `serde_json` compact serializer and parser

`LspClient::send_raw` frames `serde_json::to_string(msg)` and the reader
thread unframes and `serde_json::from_slice`s; the diagnostics runner
`serde_json::from_str`s each stdout line.  Both library entry points are
modelled here over `Value`: the serializer is `serde_json`'s compact
formatter (ASCII escapes for `"`, `\` and control characters, raw UTF-8
otherwise); the parser is the standard JSON grammar with integer numbers
(a fractional part or exponent falls outside the model and parses to
`none`), without `serde_json`'s optional recursion limit, and surrogate
`\u` pairs are rejected rather than combined. -/

/-- JSON insignificant whitespace. -/
def isWsC (c : Char) : Bool := c = ' ' || c = '\t' || c = '\n' || c = '\r'

/-- Skip insignificant whitespace. -/
def skipWsC : List Char → List Char
  | c :: cs => if isWsC c then skipWsC cs else c :: cs
  | [] => []

/-- ASCII decimal digit. -/
def isDigC (c : Char) : Bool := '0' ≤ c && c ≤ '9'

/-- Lowercase hex digit character, as `serde_json`'s escape table emits. -/
def hexDigChar (n : Nat) : Char :=
  if n < 10 then digChar n else Char.ofNat (87 + n)

/-- Hex digit value (both cases, as the JSON grammar accepts). -/
def hexValC (c : Char) : Option Nat :=
  if '0' ≤ c && c ≤ '9' then some (c.toNat - 48)
  else if 'a' ≤ c && c ≤ 'f' then some (c.toNat - 87)
  else if 'A' ≤ c && c ≤ 'F' then some (c.toNat - 55)
  else none

/-- One serialized string character, per `serde_json`'s compact formatter:
`"` and `\` get two-character escapes, control characters below `0x20` get
their short escape (`\b \t \n \f \r`) or `\u00xx`, everything else is
emitted as-is. -/
def escChar (c : Char) : List Char :=
  if c = '"' then ['\\', '"']
  else if c = '\\' then ['\\', '\\']
  else if 0x20 ≤ c.toNat then [c]
  else if c.toNat = 8 then ['\\', 'b']
  else if c.toNat = 9 then ['\\', 't']
  else if c.toNat = 10 then ['\\', 'n']
  else if c.toNat = 12 then ['\\', 'f']
  else if c.toNat = 13 then ['\\', 'r']
  else ['\\', 'u', '0', '0', hexDigChar (c.toNat / 16), hexDigChar (c.toNat % 16)]

/-- A serialized JSON string: quoted, characters escaped. -/
def serStr (s : List Char) : List Char := '"' :: (s.flatMap escChar ++ ['"'])

mutual
/-- `serde_json::to_string` over `Value` (compact: no inserted whitespace). -/
def serVal : Value → List Char
  | .null => "null".toList
  | .bool true => "true".toList
  | .bool false => "false".toList
  | .num i => intChars i
  | .str s => serStr s
  | .arr es => '[' :: (serArr es ++ [']'])
  | .obj fs => '{' :: (serObj fs ++ ['}'])

/-- Comma-separated serialized array elements. -/
def serArr : List Value → List Char
  | [] => []
  | [e] => serVal e
  | e :: e2 :: es => serVal e ++ ',' :: serArr (e2 :: es)

/-- Comma-separated serialized object members (`"key":value`). -/
def serObj : List (List Char × Value) → List Char
  | [] => []
  | [(k, v)] => serStr k ++ ':' :: serVal v
  | (k, v) :: f2 :: fs => serStr k ++ ':' :: (serVal v ++ ',' :: serObj (f2 :: fs))
end

/-- The single-character JSON escapes. -/
def unescC : Char → Option Char
  | '"' => some '"'
  | '\\' => some '\\'
  | '/' => some '/'
  | 'b' => some (Char.ofNat 8)
  | 'f' => some (Char.ofNat 12)
  | 'n' => some '\n'
  | 'r' => some '\r'
  | 't' => some '\t'
  | _ => none

/-- Parse a JSON string body after the opening quote, returning the decoded
characters and the input after the closing quote. -/
def parseStrBody : List Char → Option (List Char × List Char)
  | [] => none
  | '"' :: r => some ([], r)
  | '\\' :: esc =>
    match esc with
    | 'u' :: h1 :: h2 :: h3 :: h4 :: r =>
      match hexValC h1, hexValC h2, hexValC h3, hexValC h4 with
      | some a, some b, some c, some d =>
        let n := ((a * 16 + b) * 16 + c) * 16 + d
        if 0xD800 ≤ n ∧ n < 0xE000 then none
        else
          match parseStrBody r with
          | some (s, r2) => some (Char.ofNat n :: s, r2)
          | none => none
      | _, _, _, _ => none
    | e :: r =>
      match unescC e with
      | some c =>
        match parseStrBody r with
        | some (s, r2) => some (c :: s, r2)
        | none => none
      | none => none
    | [] => none
  | c :: r =>
    match parseStrBody r with
    | some (s, r2) => some (c :: s, r2)
    | none => none

/-- Leading decimal digit run. -/
def takeDigs : List Char → List Char × List Char
  | c :: cs =>
      if isDigC c then
        let (ds, r) := takeDigs cs
        (c :: ds, r)
      else ([], c :: cs)
  | [] => ([], [])

/-- The value of a digit-character run. -/
def digCharsVal (ds : List Char) : Nat := digitsVal (ds.map (fun c => c.toNat - 48))

/-- The optional leading minus sign of a JSON number. -/
def parseSign : List Char → Bool × List Char
  | '-' :: r => (true, r)
  | cs => (false, cs)

/-- The tail of number parsing, after the digit run `d :: ds` has been taken:
reject a redundant leading zero, and a following `.`/`e`/`E` (a float, which
the integer-number model does not cover). -/
def parseNumAfterDigs (neg : Bool) (d : Char) (ds r : List Char) :
    Option (Int × List Char) :=
  if d = '0' ∧ ds ≠ [] then none
  else
    match r with
    | '.' :: _ => none
    | 'e' :: _ => none
    | 'E' :: _ => none
    | _ =>
      let n : Int := digCharsVal (d :: ds)
      some (if neg then -n else n, r)

/-- Parse a JSON integer: optional minus, then a nonempty digit run. -/
def parseNumV (cs : List Char) : Option (Int × List Char) :=
  let (neg, cs1) := parseSign cs
  match takeDigs cs1 with
  | ([], _) => none
  | (d :: ds, r) => parseNumAfterDigs neg d ds r

mutual
/-- The JSON value parser (recursion on explicit fuel; `input.length + 1`
is always enough, as each step consumes input). -/
def parseV : Nat → List Char → Option (Value × List Char)
  | 0, _ => none
  | f + 1, cs =>
    match skipWsC cs with
    | 'n' :: 'u' :: 'l' :: 'l' :: r => some (.null, r)
    | 't' :: 'r' :: 'u' :: 'e' :: r => some (.bool true, r)
    | 'f' :: 'a' :: 'l' :: 's' :: 'e' :: r => some (.bool false, r)
    | '"' :: r =>
      match parseStrBody r with
      | some (s, r2) => some (.str s, r2)
      | none => none
    | '[' :: r =>
      match skipWsC r with
      | ']' :: r2 => some (.arr [], r2)
      | cs2 =>
        match parseElemsV f cs2 with
        | some (es, r2) => some (.arr es, r2)
        | none => none
    | '{' :: r =>
      match skipWsC r with
      | '}' :: r2 => some (.obj [], r2)
      | cs2 =>
        match parseFieldsV f cs2 with
        | some (fs, r2) => some (.obj fs, r2)
        | none => none
    | c :: r =>
      if c = '-' || isDigC c then
        match parseNumV (c :: r) with
        | some (i, r2) => some (.num i, r2)
        | none => none
      else none
    | [] => none

/-- One-or-more comma-separated array elements, up to the closing `]`. -/
def parseElemsV : Nat → List Char → Option (List Value × List Char)
  | 0, _ => none
  | f + 1, cs =>
    match parseV f cs with
    | some (v, r) =>
      match skipWsC r with
      | ',' :: r2 =>
        match parseElemsV f r2 with
        | some (vs, r3) => some (v :: vs, r3)
        | none => none
      | ']' :: r2 => some ([v], r2)
      | _ => none
    | none => none

/-- One-or-more comma-separated object members, up to the closing `}`. -/
def parseFieldsV : Nat → List Char → Option (List (List Char × Value) × List Char)
  | 0, _ => none
  | f + 1, cs =>
    match skipWsC cs with
    | '"' :: r =>
      match parseStrBody r with
      | some (k, r1) =>
        match skipWsC r1 with
        | ':' :: r2 =>
          match parseV f r2 with
          | some (v, r3) =>
            match skipWsC r3 with
            | ',' :: r4 =>
              match parseFieldsV f r4 with
              | some (fs, r5) => some ((k, v) :: fs, r5)
              | none => none
            | '}' :: r4 => some ([(k, v)], r4)
            | _ => none
          | none => none
        | _ => none
      | none => none
    | _ => none
end

/-- `serde_json::from_str::<Value>`: one complete JSON document, with only
trailing whitespace allowed. -/
def from_str (s : List Char) : Option Value :=
  match parseV (s.length + 1) s with
  | some (v, r) => if (skipWsC r).isEmpty then some v else none
  | none => none

/-! ## UTF-8 bytes and the wire framing (`src/lsp.rs`) -/

/-- UTF-8 bytes of one scalar value. -/
def utf8EncChar (c : Char) : List Nat :=
  let n := c.toNat
  if n < 0x80 then [n]
  else if n < 0x800 then [0xC0 + n / 64, 0x80 + n % 64]
  else if n < 0x10000 then [0xE0 + n / 4096, 0x80 + n / 64 % 64, 0x80 + n % 64]
  else [0xF0 + n / 262144, 0x80 + n / 4096 % 64, 0x80 + n / 64 % 64, 0x80 + n % 64]

/-- UTF-8 bytes of a string (Rust `String::len` counts exactly these). -/
def utf8Enc (s : List Char) : List Nat := s.flatMap utf8EncChar

/-- UTF-8 continuation byte. -/
def contB (b : Nat) : Bool := 0x80 ≤ b && b < 0xC0

/-- Decode one UTF-8 scalar value; rejects stray continuations, overlong
forms, surrogates and out-of-range sequences, as `str::from_utf8` does. -/
def utf8DecOne : List Nat → Option (Char × List Nat)
  | [] => none
  | b :: r =>
    if b < 0x80 then some (Char.ofNat b, r)
    else if b < 0xC2 then none
    else if b < 0xE0 then
      match r with
      | b1 :: r1 =>
        if contB b1 then some (Char.ofNat ((b - 0xC0) * 64 + (b1 - 0x80)), r1)
        else none
      | [] => none
    else if b < 0xF0 then
      match r with
      | b1 :: b2 :: r2 =>
        let n := (b - 0xE0) * 4096 + (b1 - 0x80) * 64 + (b2 - 0x80)
        if contB b1 && contB b2 && decide (0x800 ≤ n) &&
            !(decide (0xD800 ≤ n) && decide (n < 0xE000)) then
          some (Char.ofNat n, r2)
        else none
      | _ => none
    else if b < 0xF5 then
      match r with
      | b1 :: b2 :: b3 :: r3 =>
        let n := (b - 0xF0) * 262144 + (b1 - 0x80) * 4096 + (b2 - 0x80) * 64 + (b3 - 0x80)
        if contB b1 && contB b2 && contB b3 &&
            decide (0x10000 ≤ n) && decide (n < 0x110000) then
          some (Char.ofNat n, r3)
        else none
      | _ => none
    else none

/-- Decode a whole UTF-8 byte run (fuel-structural; `length` suffices). -/
def utf8DecGo : Nat → List Nat → Option (List Char)
  | _, [] => some []
  | 0, _ :: _ => none
  | f + 1, bs =>
    match utf8DecOne bs with
    | some (c, r) =>
      match utf8DecGo f r with
      | some s => some (c :: s)
      | none => none
    | none => none

/-- Decode UTF-8 bytes to a string, or `none` on invalid UTF-8. -/
def utf8Dec (bs : List Nat) : Option (List Char) := utf8DecGo bs.length bs

/-- `serde_json::from_slice::<Value>`: UTF-8 decode, then parse. -/
def from_slice (bs : List Nat) : Option Value := (utf8Dec bs).bind from_str

/-- The header key bytes, `"Content-Length: "`. -/
def clHeader : List Nat := ("Content-Length: ".toList).map Char.toNat

/-- `LspClient::send_raw` (lsp.rs:267-276): `Content-Length: <n>\r\n\r\n`
followed by the body, `n` the body's byte length. -/
def frameMsg (body : List Nat) : List Nat :=
  clHeader ++ (natChars body.length).map Char.toNat ++ [13, 10, 13, 10] ++ body

/-- The framed bytes `send_raw` emits for a message `v`: body
`serde_json::to_string(v)` as UTF-8. -/
def sendBytes (v : Value) : List Nat := frameMsg (utf8Enc (serVal v))

/-- `BufRead::read_line` on the byte stream: up to and including the next
`\n`, the whole remainder when no `\n` follows, `none` at end of input
(the `== 0` arm at lsp.rs:46). -/
def readLineB : List Nat → Option (List Nat × List Nat)
  | [] => none
  | b :: r =>
    if b = 10 then some ([10], r)
    else
      match readLineB r with
      | some (l, r2) => some (b :: l, r2)
      | none => some ([b], [])

/-- ASCII whitespace byte (the headers this reader trims are ASCII). -/
def isWsB (b : Nat) : Bool := b = 9 || b = 10 || b = 13 || b = 32

/-- `str::trim` on a header line, bytewise. -/
def trimB (l : List Nat) : List Nat :=
  ((l.dropWhile isWsB).reverse.dropWhile isWsB).reverse

/-- `str::parse::<usize>`: optional `+`, then a nonempty digit run (the model
carries `Nat`, so the `usize` overflow failure cannot arise — the source only
parses lengths that fit). -/
def parseUsize (l : List Nat) : Option Nat :=
  let ds := match l with
    | 43 :: r => r
    | _ => l
  if ds ≠ [] ∧ ds.all (fun b => 48 ≤ b && b ≤ 57) then
    some (digitsVal (ds.map (· - 48)))
  else none

/-- The reader thread's header loop (lsp.rs:43-56): read lines until a blank
one, keeping the last `Content-Length` value (0 when absent or unparsable);
`none` at end of input. -/
def headerLoop : Nat → Nat → List Nat → Option (Nat × List Nat)
  | 0, _, _ => none
  | f + 1, cl, input =>
    match readLineB input with
    | none => none
    | some (line, rest) =>
      let t := trimB line
      if t.isEmpty then some (cl, rest)
      else
        match dropPre clHeader t with
        | some lenBytes => headerLoop f ((parseUsize lenBytes).getD 0) rest
        | none => headerLoop f cl rest

/-- One pass of the reader loop (lsp.rs:42-67) up to the next successfully
parsed message: a zero/absent length skips the frame and continues, a body
that fails to parse is dropped and the loop continues, truncated input is
fatal (`none`). -/
def recvLoop : Nat → List Nat → Option (Value × List Nat)
  | 0, _ => none
  | f + 1, input =>
    match headerLoop (input.length + 1) 0 input with
    | none => none
    | some (cl, rest) =>
      if cl = 0 then recvLoop f rest
      else if cl ≤ rest.length then
        match from_slice (rest.take cl) with
        | some v => some (v, rest.drop cl)
        | none => recvLoop f (rest.drop cl)
      else none

/-- Read one message from the byte stream with the reader's unframing. -/
def receive_one (input : List Nat) : Option (Value × List Nat) :=
  recvLoop (input.length + 1) input

/-! ## Session id allocation and the response registry (`src/lsp.rs`) -/

/-- The response registry `Arc<Mutex<HashMap<i64, Value>>>`, extensionally: a
finite partial map from ids to payloads.  The two threads touch it one
locked operation at a time, so its sequential map semantics is the model. -/
def Registry := Int → Option Value

/-- The reader thread's `map.insert(id, json)` (lsp.rs:79). -/
def regInsert (m : Registry) (id : Int) (v : Value) : Registry :=
  fun k => if k = id then some v else m k

/-- `LspClient::get_response` (lsp.rs:232-234): `HashMap::remove`, returning
the removed payload and the registry without it. -/
def get_response (m : Registry) (id : Int) : Option Value × Registry :=
  (m id, fun k => if k = id then none else m k)

/-- The id-allocation state of `LspClient`: `next_id` (lsp.rs:17), starting
at 1 (lsp.rs:98). -/
structure ClientSt where
  next_id : Int

/-- `LspClient::send_request` (lsp.rs:236-247): hand out `next_id`, then
increment it. -/
def send_request (st : ClientSt) : Int × ClientSt :=
  (st.next_id, { next_id := st.next_id + 1 })

/-- The request-sending operations of one session.  `initialize`
(lsp.rs:104-139) sends one request (the follow-up `initialized` is a
notification, which allocates no id); `request_completion` (lsp.rs:215-226)
first answers pending server requests (`send_response` echoes the server's
id and allocates none) then sends one request; `resolve_completion`
(lsp.rs:228-230) sends one request. -/
inductive LspOp where
  | initializeOp
  | requestCompletionOp (line col : Nat)
  | resolveCompletionOp (item : Value)

/-- Run one operation: each allocates exactly one fresh id. -/
def runOp (st : ClientSt) : LspOp → Int × ClientSt
  | .initializeOp => send_request st
  | .requestCompletionOp _ _ => send_request st
  | .resolveCompletionOp _ => send_request st

/-- Run a sequence of operations, collecting the returned ids in order. -/
def runOps (st : ClientSt) : List LspOp → List Int × ClientSt
  | [] => ([], st)
  | op :: ops =>
      let (id, st1) := runOp st op
      let (ids, st2) := runOps st1 ops
      (id :: ids, st2)

/-! ## The diagnostics runner's spawn guard (`src/diagnostic.rs`) -/

/-- `DiagnosticLevel` (diagnostic.rs:9-13). -/
inductive DiagnosticLevel where
  | warning
  | error
deriving DecidableEq

/-- `Diagnostic` (diagnostic.rs:15-21). -/
structure Diagnostic where
  level : DiagnosticLevel
  message : List Char
  line : Option Nat
  column : Option Nat
deriving DecidableEq

/-- `DiagnosticState` (diagnostic.rs:23-27). -/
structure DiagnosticState where
  diagnostics : List Diagnostic
  is_running : Bool

/-- `spawn_cargo_check` (diagnostic.rs:179-188), as a transition on the
shared state at spawn time: when `is_running` holds it returns at once;
otherwise it spawns a background check on `file` (the returned `Option`,
`none` = no work started).  Either way the spawn call itself leaves the
shared state untouched (the background thread sets the flag later). -/
def spawn_cargo_check (s : DiagnosticState) (file : List Char) :
    DiagnosticState × Option (List Char) :=
  if s.is_running then (s, none) else (s, some file)

/-! ## The diagnostics parser (`src/diagnostic.rs`) -/

/-- Split on a separator character (every separator ends a piece; a trailing
separator yields a trailing empty piece). -/
def splitOnChar (sep : Char) : List Char → List (List Char)
  | [] => [[]]
  | c :: r =>
    if c = sep then [] :: splitOnChar sep r
    else
      match splitOnChar sep r with
      | l :: ls => (c :: l) :: ls
      | [] => [[c]]

/-- Rust `str::lines`: split on `\n`, a final newline produces no trailing
empty line, and one trailing `\r` is stripped from each line. -/
def rustLines (s : List Char) : List (List Char) :=
  let parts :=
    if s = [] then []
    else if s.getLast? = some '\n' then (splitOnChar '\n' s).dropLast
    else splitOnChar '\n' s
  parts.map (fun l => if l.getLast? = some '\r' then l.dropLast else l)

/-- `Path::join` (the only use feeds `canonicalize`, which is abstract). -/
def pathJoin (dir f : List Char) : List Char := dir ++ '/' :: f

/-- `Path::ends_with`: component-wise suffix. -/
def pathEndsWith (target f : List Char) : Bool :=
  ((splitOnChar '/' f).reverse).isPrefixOf ((splitOnChar '/' target).reverse)

/-- The `level` string to a severity (diagnostic.rs:85-89); anything else
skips the record. -/
def diagLevelOf (s : List Char) : Option DiagnosticLevel :=
  if s = ("error".toList) then some .error
  else if s = ("warning".toList) then some .warning
  else none

/-- The severity of a record's `message` object (diagnostic.rs:85-89,
`unwrap_or("")` folded into `diagLevelOf`'s rejection of anything else). -/
def recordLevel (message : Value) : Option DiagnosticLevel :=
  diagLevelOf (((message.getKey ("level".toList)).bind Value.asStr).getD [])

/-- The primary span: `message.spans[0]` (diagnostic.rs:97-100). -/
def recordSpan (message : Value) : Option Value :=
  ((message.getKey ("spans".toList)).bind Value.asArr).bind List.head?

/-- The span-match policy (diagnostic.rs:106-116): a present `file_name` is
joined with the project directory (or taken as-is) and canonicalized
(`canon`, an abstraction of the filesystem operation `Path::canonicalize`);
a successful resolution is compared with the edited file, a failed one falls
back to a component-wise `ends_with`; a record with no span file is kept
exactly when its severity is error. -/
def spanMatches (canon : List Char → Option (List Char)) (target : List Char)
    (project_dir : Option (List Char)) (level : DiagnosticLevel)
    (span_file : Option (List Char)) : Bool :=
  match span_file with
  | some f =>
    let resolved :=
      match project_dir with
      | some dir => canon (pathJoin dir f)
      | none => canon f
    match resolved with
    | some p => decide (p = target)
    | none => pathEndsWith target f
  | none => decide (level = DiagnosticLevel.error)

/-- The span's `line_start`/`column_start` (diagnostic.rs:122-134). -/
def recordPositions (span : Option Value) : Option Nat × Option Nat :=
  match span with
  | some s => ((s.getKey ("line_start".toList)).bind Value.asU64,
               (s.getKey ("column_start".toList)).bind Value.asU64)
  | none => (none, none)

/-- The loop body of `parse_diagnostics` (diagnostic.rs:74-142) on one parsed
record.  Kept records carry the span's `line_start` decremented
(`saturating_sub 1`) and `column_start` as reported. -/
def processRecord (canon : List Char → Option (List Char)) (target : List Char)
    (project_dir : Option (List Char)) (json : Value) : Option Diagnostic :=
  if ((json.getKey ("reason".toList)).bind Value.asStr) ≠ some ("compiler-message".toList)
  then none
  else
    match json.getKey ("message".toList) with
    | none => none
    | some message =>
      match recordLevel message with
      | none => none
      | some level =>
        let msg := ((message.getKey ("message".toList)).bind Value.asStr).getD []
        let span := recordSpan message
        let span_file := (span.bind (fun s => s.getKey ("file_name".toList))).bind Value.asStr
        if !(spanMatches canon target project_dir level span_file) then none
        else
          let lc := recordPositions span
          some { level := level, message := msg,
                 line := lc.1.map (fun l => l - 1), column := lc.2 }

/-- `parse_diagnostics` (diagnostic.rs:67-145): each stdout line that parses
as JSON goes through `processRecord`; at most one diagnostic per line. -/
def parse_diagnostics (canon : List Char → Option (List Char)) (output : List Char)
    (target : List Char) (project_dir : Option (List Char)) : List Diagnostic :=
  (rustLines output).filterMap
    (fun line => (from_str line).bind (processRecord canon target project_dir))


/-! ## Diagnostic record fixtures -/

/-- The wire string of a severity. -/
def levelStr : DiagnosticLevel → List Char
  | .error => "error".toList
  | .warning => "warning".toList

/-- A primary span carrying `file_name`/`line_start`/`column_start`. -/
def spanObj (f : List Char) (l c : Nat) : Value :=
  .obj [("file_name".toList, .str f),
        ("line_start".toList, .num l),
        ("column_start".toList, .num c)]

/-- A record's `message` object: `level`, `message` text and `spans` (one
primary span, or none at all). -/
def diagMessageObj (level msg : List Char) (spanFile : Option (List Char))
    (l c : Nat) : Value :=
  .obj [("level".toList, .str level),
        ("message".toList, .str msg),
        ("spans".toList,
          match spanFile with
          | some f => .arr [spanObj f l c]
          | none => .arr [])]

/-- A `cargo` compiler-message record, as the tool emits one per line. -/
def diagRecord (level msg : List Char) (spanFile : Option (List Char))
    (l c : Nat) : Value :=
  .obj [("reason".toList, .str ("compiler-message".toList)),
        ("message".toList, diagMessageObj level msg spanFile l c)]

/-- The canonical path of the edited file in the concrete scenario. -/
def c7target : List Char := "/proj/src/main.rs".toList

/-- The project directory in the concrete scenario. -/
def c7dir : List Char := "/proj".toList

/-- A canonicalize model for the scenario: the joined span path resolves to
the edited file, everything else fails to resolve. -/
def c7canon : List Char → Option (List Char) :=
  fun p => if p = ("/proj/src/main.rs".toList) then some c7target else none

/-- Tool output with two records: one whose primary span resolves to the
edited file (severity a parameter), and one span-less warning. -/
def c7output (lvl : List Char) : List Char :=
  serVal (diagRecord lvl ("m1".toList) (some ("src/main.rs".toList)) 5 3)
    ++ '\n' :: serVal (diagRecord ("warning".toList) ("m2".toList) none 1 1)

/-! ## Side conditions used by the round-trip lemmas -/

/-- The remainder does not begin with a digit (so a digit run ends here). -/
def headNotDig : List Char → Prop
  | [] => True
  | c :: _ => isDigC c = false

/-- The remainder cannot extend a serialized number: empty, or headed by a
character that is neither a digit nor `.`, `e`, `E`.  Every JSON delimiter
(`,`, `]`, `}`, whitespace, end of input) qualifies. -/
def numStop : List Char → Prop
  | [] => True
  | c :: _ => isDigC c = false ∧ c ≠ '.' ∧ c ≠ 'e' ∧ c ≠ 'E'

/-! ## Concrete fixtures used by witnesses and scenario claims -/

/-- A minimal item whose insert text is its label. -/
def mkItem (label : List Char) : CompletionItem :=
  { label := label, detail := none, kind := ['?'], insert_text := label,
    raw := .null }

/-- A listing state over `["foo", "bar", "foobar"]` with the given selection. -/
def testCompletionSt (sel : Nat) : CompletionState :=
  { items := [mkItem ("foo".toList), mkItem ("bar".toList), mkItem ("foobar".toList)],
    selected := sel, pfx := [], request_id := none, doc := none, scroll := 0,
    resolve_id := none }

/-- A two-item listing state with a resolve in flight tagged with index 0. -/
def c5TestSt : CompletionState :=
  { items := [mkItem ("aa".toList), mkItem ("ab".toList)], selected := 0,
    pfx := [], request_id := none, doc := some ("old".toList), scroll := 0,
    resolve_id := some (7, 0) }

/-- A nested unicode payload: sorted object keys, array nesting, a negative
number, and a string exercising short escapes, `\u` escapes, and 2-, 3- and
4-byte UTF-8 (`λ`, `€`, a smiley). -/
def c1TestVal : Value :=
  .obj [("a".toList,
          .arr [.num (-42),
                .str ['"', '\\', '\n', Char.ofNat 7, Char.ofNat 955,
                      Char.ofNat 8364, Char.ofNat 128512],
                .null]),
        ("b".toList, .bool true)]

/-- The raw completion item of the apply scenario: protocol insert text
`println!($0)`. -/
def c4Item : Value :=
  .obj [("insertText".toList, .str ("println!($0)".toList)),
        ("label".toList, .str ("println!".toList))]

/-- A completion response carrying just the apply-scenario item. -/
def c4Response : Value := .obj [("result".toList, .arr [c4Item])]

/-! ## Theorems -/

/-! ### Decimal digit runs -/

theorem natDigsGo_fuel : ∀ (n f g : Nat), n ≤ f → n ≤ g → natDigsGo f n = natDigsGo g n := by
  intro n
  induction n using Nat.strong_induction_on with
  | _ n ih =>
    intro f g hf hg
    match n with
    | 0 => simp [natDigsGo]
    | n + 1 =>
      obtain ⟨f1, rfl⟩ : ∃ f1, f = f1 + 1 := ⟨f - 1, by omega⟩
      obtain ⟨g1, rfl⟩ : ∃ g1, g = g1 + 1 := ⟨g - 1, by omega⟩
      simp only [natDigsGo]
      by_cases h10 : n + 1 < 10
      · simp [h10]
      · simp only [h10, if_false]
        rw [ih ((n + 1) / 10) (by omega) f1 g1 (by omega) (by omega)]

theorem natDigs_step (n : Nat) :
    natDigs n = if n < 10 then [n] else natDigs (n / 10) ++ [n % 10] := by
  match n with
  | 0 => simp [natDigs, natDigsGo]
  | n + 1 =>
    simp only [natDigs, natDigsGo]
    by_cases h10 : n + 1 < 10
    · simp [h10]
    · simp only [h10, if_false]
      rw [natDigsGo_fuel ((n + 1) / 10) n ((n + 1) / 10) (by omega) (by omega)]

theorem natDigs_all_lt (n : Nat) : ∀ d ∈ natDigs n, d < 10 := by
  induction n using Nat.strong_induction_on with
  | _ n ih =>
    rw [natDigs_step]
    by_cases h10 : n < 10
    · simp [h10]
    · simp only [h10, if_false, List.mem_append, List.mem_singleton]
      rintro d (hd | rfl)
      · exact ih (n / 10) (by omega) d hd
      · omega

theorem natDigs_ne_nil (n : Nat) : natDigs n ≠ [] := by
  rw [natDigs_step]
  split <;> simp

theorem digitsVal_append_digit (ds : List Nat) (d : Nat) :
    digitsVal (ds ++ [d]) = 10 * digitsVal ds + d := by
  simp [digitsVal, List.foldl_append]
  omega

theorem digitsVal_natDigs (n : Nat) : digitsVal (natDigs n) = n := by
  induction n using Nat.strong_induction_on with
  | _ n ih =>
    rw [natDigs_step]
    by_cases h10 : n < 10
    · simp [h10, digitsVal]
    · simp only [h10, if_false, digitsVal_append_digit]
      rw [ih (n / 10) (by omega)]
      omega

theorem natDigs_head_pos (n : Nat) :
    ∀ d ds, 1 ≤ n → natDigs n = d :: ds → 1 ≤ d := by
  induction n using Nat.strong_induction_on with
  | _ n ih =>
    intro d ds hn heq
    rw [natDigs_step] at heq
    by_cases h10 : n < 10
    · simp only [h10, if_true] at heq
      cases heq
      omega
    · simp only [h10, if_false] at heq
      rcases hcons : natDigs (n / 10) with _ | ⟨d1, ds1⟩
      · exact absurd hcons (natDigs_ne_nil _)
      · rw [hcons, List.cons_append] at heq
        cases heq
        exact ih (n / 10) (by omega) d ds1 (by omega) hcons

/-! ### Character facts -/

theorem charToNat_ofNat (n : Nat) (h : n.isValidChar) : (Char.ofNat n).toNat = n := by
  simp only [Char.ofNat, dif_pos h, Char.ofNatAux, Char.toNat]
  rfl

theorem char_eq_of_toNat {a b : Char} (h : a.toNat = b.toNat) : a = b := by
  calc a = Char.ofNat a.toNat := (Char.ofNat_toNat a).symm
    _ = Char.ofNat b.toNat := by rw [h]
    _ = b := Char.ofNat_toNat b

theorem char_valid_cases (c : Char) :
    c.toNat < 0xD800 ∨ (0xE000 ≤ c.toNat ∧ c.toNat < 0x110000) := by
  rcases c.valid with h | ⟨h1, h2⟩
  · exact Or.inl h
  · exact Or.inr ⟨h1, h2⟩

theorem digChar_toNat (d : Nat) (h : d < 10) : (digChar d).toNat = 48 + d := by
  exact charToNat_ofNat _ (Or.inl (by omega))

theorem digChar_props (d : Nat) (h : d < 10) :
    isDigC (digChar d) = true ∧ isWsC (digChar d) = false
    ∧ digChar d ≠ '-' ∧ digChar d ≠ '.' ∧ digChar d ≠ 'e' ∧ digChar d ≠ 'E'
    ∧ digChar d ≠ 'n' ∧ digChar d ≠ 't' ∧ digChar d ≠ 'f'
    ∧ digChar d ≠ '"' ∧ digChar d ≠ '[' ∧ digChar d ≠ '{'
    ∧ digChar d ≠ ']' ∧ digChar d ≠ '}' ∧ digChar d ≠ ',' := by
  interval_cases d <;> exact (by decide)

theorem digChar_zero_iff (d : Nat) (h : d < 10) : digChar d = '0' ↔ d = 0 := by
  interval_cases d <;> simp [digChar]

theorem hexValC_hexDigChar (k : Nat) (h : k < 16) : hexValC (hexDigChar k) = some k := by
  interval_cases k <;> exact (by decide)

/-! ### Number round trip -/

theorem takeDigs_run : ∀ (ds : List Char), (∀ c ∈ ds, isDigC c = true) →
    ∀ (rest : List Char), headNotDig rest → takeDigs (ds ++ rest) = (ds, rest)
  | [], _ => by
      intro rest hrest
      match rest with
      | [] => rfl
      | c :: t => simp_all [takeDigs, headNotDig]
  | c :: ds, h => by
      intro rest hrest
      have hc : isDigC c = true := h c (by simp)
      have ih := takeDigs_run ds (fun x hx => h x (by simp [hx])) rest hrest
      simp [takeDigs, hc, ih]

theorem digCharsVal_natChars (n : Nat) : digCharsVal (natChars n) = n := by
  have hmap : (natChars n).map (fun c => c.toNat - 48) = natDigs n := by
    simp only [natChars, List.map_map]
    rw [List.map_congr_left (fun d hd => ?_), List.map_id]
    have := natDigs_all_lt n d hd
    simp [Function.comp, digChar_toNat d this]
  simp [digCharsVal, hmap, digitsVal_natDigs]

theorem natChars_all_dig (n : Nat) : ∀ c ∈ natChars n, isDigC c = true := by
  intro c hc
  simp only [natChars, List.mem_map] at hc
  obtain ⟨d, hd, rfl⟩ := hc
  exact (digChar_props d (natDigs_all_lt n d hd)).1

theorem natChars_cons (n : Nat) :
    ∃ d t, natChars n = digChar d :: t ∧ d < 10 ∧ (1 ≤ n → 1 ≤ d) := by
  rcases h : natDigs n with _ | ⟨d, ds⟩
  · exact absurd h (natDigs_ne_nil n)
  · refine ⟨d, ds.map digChar, by simp [natChars, h], natDigs_all_lt n d (by simp [h]), ?_⟩
    intro hn
    exact natDigs_head_pos n d ds hn h

theorem headNotDig_of_numStop (rest : List Char) (h : numStop rest) : headNotDig rest := by
  match rest, h with
  | [], _ => trivial
  | c :: t, h => exact h.1

theorem natChars_zero : natChars 0 = [digChar 0] := by
  have h0 : natDigs 0 = [0] := by rw [natDigs_step]; simp
  simp [natChars, h0]

theorem parseNum_intChars (i : Int) (rest : List Char) (h : numStop rest) :
    parseNumV (intChars i ++ rest) = some (i, rest) := by
  obtain ⟨d0, t0, hnat, hd0lt, hd0pos⟩ := natChars_cons i.natAbs
  have hdp := digChar_props d0 hd0lt
  have htake : takeDigs (natChars i.natAbs ++ rest) = (natChars i.natAbs, rest) :=
    takeDigs_run _ (natChars_all_dig _) rest (headNotDig_of_numStop rest h)
  have hlead : ¬(digChar d0 = '0' ∧ t0 ≠ []) := by
    rintro ⟨hz, hne⟩
    have hd0z : d0 = 0 := (digChar_zero_iff d0 hd0lt).mp hz
    have hm : i.natAbs = 0 := by
      by_contra hm
      have := hd0pos (by omega)
      omega
    rw [hm, natChars_zero] at hnat
    injection hnat with _ ht
    exact hne ht.symm
  have hvalN : digCharsVal (digChar d0 :: t0) = i.natAbs := by
    rw [← hnat, digCharsVal_natChars]
  have htake' : takeDigs (digChar d0 :: (t0 ++ rest)) = (digChar d0 :: t0, rest) := by
    have h2 := htake
    rw [hnat, List.cons_append] at h2
    exact h2
  have hafterT : parseNumAfterDigs true (digChar d0) t0 rest
      = some (-(i.natAbs : Int), rest) := by
    rcases rest with _ | ⟨c, t⟩
    · simp [parseNumAfterDigs, hlead, hvalN]
    · have h1 := h.2.1
      have h2 := h.2.2.1
      have h3 := h.2.2.2
      simp [parseNumAfterDigs, hlead, h1, h2, h3, hvalN]
  have hafterF : parseNumAfterDigs false (digChar d0) t0 rest
      = some ((i.natAbs : Int), rest) := by
    rcases rest with _ | ⟨c, t⟩
    · simp [parseNumAfterDigs, hlead, hvalN]
    · have h1 := h.2.1
      have h2 := h.2.2.1
      have h3 := h.2.2.2
      simp [parseNumAfterDigs, hlead, h1, h2, h3, hvalN]
  by_cases hi : i < 0
  · have hform : intChars i ++ rest = '-' :: (digChar d0 :: (t0 ++ rest)) := by
      simp [intChars, hi, hnat]
    rw [hform]
    simp only [parseNumV, parseSign, htake', hafterT]
    simp only [Option.some.injEq, Prod.mk.injEq, and_true]
    omega
  · have hform : intChars i ++ rest = digChar d0 :: (t0 ++ rest) := by
      simp [intChars, hi, hnat]
    rw [hform]
    have hsign : parseSign (digChar d0 :: (t0 ++ rest))
        = (false, digChar d0 :: (t0 ++ rest)) := by
      simp [parseSign, hdp.2.2.1]
    simp only [parseNumV, hsign, htake', hafterF]
    simp only [Option.some.injEq, Prod.mk.injEq, and_true]
    omega

/-! ### String round trip -/

theorem escChar_step (c : Char) (t : List Char) :
    parseStrBody (escChar c ++ t)
      = match parseStrBody t with
        | some (s, r) => some (c :: s, r)
        | none => none := by
  by_cases hq : c = '"'
  · subst hq; rfl
  · by_cases hb : c = '\\'
    · subst hb; rfl
    · by_cases hge : 0x20 ≤ c.toNat
      · have hesc : escChar c = [c] := by simp [escChar, hq, hb, hge]
        rw [hesc]
        simp [parseStrBody, hq, hb]
      · have h32 : c.toNat < 0x20 := by omega
        by_cases h8 : c.toNat = 8
        · have hc : c = Char.ofNat 8 := char_eq_of_toNat (by rw [h8]; decide)
          subst hc; rfl
        · by_cases h9 : c.toNat = 9
          · have hc : c = Char.ofNat 9 := char_eq_of_toNat (by rw [h9]; decide)
            subst hc; rfl
          · by_cases h10 : c.toNat = 10
            · have hc : c = Char.ofNat 10 := char_eq_of_toNat (by rw [h10]; decide)
              subst hc; rfl
            · by_cases h12 : c.toNat = 12
              · have hc : c = Char.ofNat 12 := char_eq_of_toNat (by rw [h12]; decide)
                subst hc; rfl
              · by_cases h13 : c.toNat = 13
                · have hc : c = Char.ofNat 13 := char_eq_of_toNat (by rw [h13]; decide)
                  subst hc; rfl
                · have hesc : escChar c
                      = ['\\', 'u', '0', '0',
                         hexDigChar (c.toNat / 16), hexDigChar (c.toNat % 16)] := by
                    simp [escChar, hq, hb, hge, h8, h9, h10, h12, h13]
                  rw [hesc]
                  have hhi : hexValC (hexDigChar (c.toNat / 16)) = some (c.toNat / 16) :=
                    hexValC_hexDigChar _ (by omega)
                  have hlo : hexValC (hexDigChar (c.toNat % 16)) = some (c.toNat % 16) :=
                    hexValC_hexDigChar _ (by omega)
                  have h0 : hexValC '0' = some 0 := by decide
                  simp only [List.cons_append, List.nil_append, parseStrBody,
                    h0, hhi, hlo]
                  rw [show ((0 * 16 + 0) * 16 + c.toNat / 16) * 16 + c.toNat % 16
                      = c.toNat from by omega]
                  rw [if_neg (by omega)]
                  rw [Char.ofNat_toNat]
                  simp

theorem parseStr_ser : ∀ (s rest : List Char),
    parseStrBody (s.flatMap escChar ++ '"' :: rest) = some (s, rest)
  | [], rest => by simp [parseStrBody]
  | c :: cs, rest => by
      rw [List.flatMap_cons, List.append_assoc, escChar_step, parseStr_ser cs rest]

/-! ### Serialized values: head characters and whitespace -/

theorem skipWs_cons_not {c : Char} (t : List Char) (h : isWsC c = false) :
    skipWsC (c :: t) = c :: t := by
  simp [skipWsC, h]

theorem serVal_head (v : Value) :
    ∃ c t, serVal v = c :: t ∧ isWsC c = false ∧ c ≠ ']' ∧ c ≠ '}' := by
  cases v
  case num i =>
    by_cases hi : i < 0
    · refine ⟨'-', natChars i.natAbs, ?_, ?_, ?_, ?_⟩
      · simp [serVal, intChars, hi]
      all_goals decide
    · obtain ⟨d0, t0, hnat, hd0lt, _⟩ := natChars_cons i.natAbs
      have hdp := digChar_props d0 hd0lt
      refine ⟨digChar d0, t0, ?_, hdp.2.1, hdp.2.2.2.2.2.2.2.2.2.2.2.2.1,
        hdp.2.2.2.2.2.2.2.2.2.2.2.2.2.1⟩
      simp [serVal, intChars, hi, hnat]
  case bool b =>
    cases b <;> (refine ⟨_, _, rfl, ?_, ?_, ?_⟩ <;> decide)
  all_goals refine ⟨_, _, rfl, ?_, ?_, ?_⟩ <;> decide

theorem serVal_len_pos (v : Value) : 1 ≤ (serVal v).length := by
  obtain ⟨c, t, hv, _⟩ := serVal_head v
  simp [hv]

theorem skipWs_serVal (v : Value) (x : List Char) :
    skipWsC (serVal v ++ x) = serVal v ++ x := by
  obtain ⟨c, t, hv, hws, _, _⟩ := serVal_head v
  rw [hv, List.cons_append, skipWs_cons_not _ hws]

theorem numStop_rsqb (rest : List Char) : numStop (']' :: rest) :=
  ⟨by decide, by decide, by decide, by decide⟩

theorem numStop_rcub (rest : List Char) : numStop ('}' :: rest) :=
  ⟨by decide, by decide, by decide, by decide⟩

theorem numStop_comma (rest : List Char) : numStop (',' :: rest) :=
  ⟨by decide, by decide, by decide, by decide⟩

/-- Dispatch of the value parser into the number parser, for a head that is
a minus sign or digit. -/
theorem parseV_num_dispatch (f : Nat) (c : Char) (r : List Char)
    (hws : isWsC c = false) (hn : c ≠ 'n') (ht : c ≠ 't') (hf : c ≠ 'f')
    (hq : c ≠ '"') (hlb : c ≠ '[') (hlc : c ≠ '{')
    (hg : (c = '-' || isDigC c) = true) :
    parseV (f + 1) (c :: r)
      = match parseNumV (c :: r) with
        | some (i, r2) => some (.num i, r2)
        | none => none := by
  simp only [parseV, skipWs_cons_not _ hws]
  simp [hn, ht, hf, hq, hlb, hlc, hg]

/-! ### The full codec round trip, by mutual induction on the value -/

mutual
theorem rt_val : ∀ (v : Value) (fuel : Nat) (rest : List Char),
    (serVal v).length < fuel → numStop rest →
    parseV fuel (serVal v ++ rest) = some (v, rest)
  | .null, fuel, rest, hf, _ => by
      cases fuel with
      | zero => exact absurd hf (Nat.not_lt_zero _)
      | succ f => simp [serVal, parseV, skipWsC, isWsC]
  | .bool b, fuel, rest, hf, _ => by
      cases fuel with
      | zero => exact absurd hf (Nat.not_lt_zero _)
      | succ f => cases b <;> simp [serVal, parseV, skipWsC, isWsC]
  | .num i, fuel, rest, hf, hstop => by
      cases fuel with
      | zero => exact absurd hf (Nat.not_lt_zero _)
      | succ f =>
        by_cases hi : i < 0
        · have harg : serVal (.num i) ++ rest = '-' :: (natChars i.natAbs ++ rest) := by
            simp [serVal, intChars, hi]
          rw [harg, parseV_num_dispatch f '-' _ (by decide) (by decide) (by decide)
            (by decide) (by decide) (by decide) (by decide) (by decide), ← harg,
            show serVal (.num i) = intChars i from rfl, parseNum_intChars i rest hstop]
        · obtain ⟨d0, t0, hnat, hd0lt, _⟩ := natChars_cons i.natAbs
          have hdp := digChar_props d0 hd0lt
          have harg : serVal (.num i) ++ rest = digChar d0 :: (t0 ++ rest) := by
            simp [serVal, intChars, hi, hnat]
          rw [harg, parseV_num_dispatch f (digChar d0) _ hdp.2.1
            hdp.2.2.2.2.2.2.1 hdp.2.2.2.2.2.2.2.1 hdp.2.2.2.2.2.2.2.2.1
            hdp.2.2.2.2.2.2.2.2.2.1 hdp.2.2.2.2.2.2.2.2.2.2.1
            hdp.2.2.2.2.2.2.2.2.2.2.2.1 (by simp [hdp.1]), ← harg,
            show serVal (.num i) = intChars i from rfl, parseNum_intChars i rest hstop]
  | .str s, fuel, rest, hf, _ => by
      cases fuel with
      | zero => exact absurd hf (Nat.not_lt_zero _)
      | succ f =>
        have harg : serVal (.str s) ++ rest
            = '"' :: (s.flatMap escChar ++ '"' :: rest) := by
          simp [serVal, serStr]
        rw [harg]
        simp [parseV, skipWsC, isWsC, parseStr_ser]
  | .arr [], fuel, rest, hf, _ => by
      cases fuel with
      | zero => exact absurd hf (Nat.not_lt_zero _)
      | succ f =>
        have harg : serVal (.arr []) ++ rest = '[' :: (']' :: rest) := by
          simp [serVal, serArr]
        rw [harg]
        simp [parseV, skipWsC, isWsC]
  | .arr (e :: es), fuel, rest, hf, _ => by
      cases fuel with
      | zero => exact absurd hf (Nat.not_lt_zero _)
      | succ f =>
        obtain ⟨c0, t0, hser, hws0, hbr0, _⟩ := serVal_head e
        have hb : (serArr (e :: es)).length + 1 < f := by
          simp only [serVal, List.length_cons, List.length_append,
            List.length_singleton] at hf
          omega
        have harg : serVal (.arr (e :: es)) ++ rest
            = '[' :: (serArr (e :: es) ++ ']' :: rest) := by
          simp [serVal]
        have hinner : skipWsC (serArr (e :: es) ++ ']' :: rest)
            = serArr (e :: es) ++ ']' :: rest := by
          rcases es with _ | ⟨e2, es2⟩
          · simpa [serArr] using skipWs_serVal e (']' :: rest)
          · simpa [serArr, List.append_assoc] using
              skipWs_serVal e (',' :: (serArr (e2 :: es2) ++ ']' :: rest))
        obtain ⟨w, hw⟩ : ∃ w, serArr (e :: es) ++ ']' :: rest = c0 :: w := by
          rcases es with _ | ⟨e2, es2⟩
          · exact ⟨t0 ++ ']' :: rest, by simp [serArr, hser]⟩
          · exact ⟨t0 ++ (',' :: (serArr (e2 :: es2) ++ ']' :: rest)),
              by simp [serArr, hser, List.append_assoc]⟩
        rw [harg]
        simp only [parseV]
        rw [skipWs_cons_not _ (by decide : isWsC '[' = false)]
        simp only [hinner]
        rw [hw]
        split
        · rename_i r2 heq
          injection heq with h1 h2
          exact absurd h1 hbr0
        · rw [← hw, rt_arr e es f rest hb]
  | .obj [], fuel, rest, hf, _ => by
      cases fuel with
      | zero => exact absurd hf (Nat.not_lt_zero _)
      | succ f =>
        have harg : serVal (.obj []) ++ rest = '{' :: ('}' :: rest) := by
          simp [serVal, serObj]
        rw [harg]
        simp [parseV, skipWsC, isWsC]
  | .obj (kv :: fs), fuel, rest, hf, _ => by
      cases fuel with
      | zero => exact absurd hf (Nat.not_lt_zero _)
      | succ f =>
        have hb : (serObj (kv :: fs)).length + 1 < f := by
          simp only [serVal, List.length_cons, List.length_append,
            List.length_singleton] at hf
          omega
        have harg : serVal (.obj (kv :: fs)) ++ rest
            = '{' :: (serObj (kv :: fs) ++ '}' :: rest) := by
          simp [serVal]
        obtain ⟨w, hw⟩ : ∃ w, serObj (kv :: fs) ++ '}' :: rest = '"' :: w := by
          obtain ⟨k, v⟩ := kv
          rcases fs with _ | ⟨f2, fs2⟩
          · exact ⟨k.flatMap escChar ++ '"' :: (':' :: (serVal v ++ '}' :: rest)),
              by simp [serObj, serStr]⟩
          · exact ⟨k.flatMap escChar ++ '"' :: (':' :: (serVal v
                ++ ',' :: (serObj (f2 :: fs2) ++ '}' :: rest))),
              by simp [serObj, serStr, List.append_assoc]⟩
        have hinner : skipWsC (serObj (kv :: fs) ++ '}' :: rest)
            = serObj (kv :: fs) ++ '}' :: rest := by
          rw [hw]; exact skipWs_cons_not _ (by decide)
        rw [harg]
        simp only [parseV]
        rw [skipWs_cons_not _ (by decide : isWsC '{' = false)]
        simp only [hinner]
        rw [hw]
        split
        · rename_i r2 heq
          injection heq with h1 h2
          exact absurd h1 (by decide)
        · rw [← hw, rt_obj kv fs f rest hb]

theorem rt_arr : ∀ (e : Value) (es : List Value) (fuel : Nat) (rest : List Char),
    (serArr (e :: es)).length + 1 < fuel →
    parseElemsV fuel (serArr (e :: es) ++ ']' :: rest) = some (e :: es, rest)
  | e, [], fuel, rest, hf => by
      cases fuel with
      | zero => exact absurd hf (Nat.not_lt_zero _)
      | succ f =>
        have hb : (serVal e).length < f := by
          simp only [serArr, List.length_cons] at hf
          omega
        have harg : serArr [e] ++ ']' :: rest = serVal e ++ ']' :: rest := by
          simp [serArr]
        rw [harg]
        simp only [parseElemsV]
        rw [rt_val e f (']' :: rest) hb (numStop_rsqb rest)]
        simp [skipWsC, isWsC]
  | e, e2 :: es2, fuel, rest, hf => by
      cases fuel with
      | zero => exact absurd hf (Nat.not_lt_zero _)
      | succ f =>
        have hlene := serVal_len_pos e
        have hb1 : (serVal e).length < f := by
          simp only [serArr, List.length_cons, List.length_append] at hf
          omega
        have hb2 : (serArr (e2 :: es2)).length + 1 < f := by
          simp only [serArr, List.length_cons, List.length_append] at hf
          omega
        have harg : serArr (e :: e2 :: es2) ++ ']' :: rest
            = serVal e ++ (',' :: (serArr (e2 :: es2) ++ ']' :: rest)) := by
          simp [serArr, List.append_assoc]
        rw [harg]
        simp only [parseElemsV]
        rw [rt_val e f _ hb1 (numStop_comma _)]
        simp only [skipWs_cons_not _ (by decide : isWsC ',' = false)]
        simp only [rt_arr e2 es2 f rest hb2]

theorem rt_obj : ∀ (kv : List Char × Value) (fs : List (List Char × Value))
    (fuel : Nat) (rest : List Char),
    (serObj (kv :: fs)).length + 1 < fuel →
    parseFieldsV fuel (serObj (kv :: fs) ++ '}' :: rest) = some (kv :: fs, rest)
  | (k, v), [], fuel, rest, hf => by
      cases fuel with
      | zero => exact absurd hf (Nat.not_lt_zero _)
      | succ f =>
        have hb : (serVal v).length < f := by
          simp only [serObj, serStr, List.length_cons, List.length_append] at hf
          omega
        have harg : serObj [(k, v)] ++ '}' :: rest
            = '"' :: (k.flatMap escChar ++ '"' :: (':' :: (serVal v ++ '}' :: rest))) := by
          simp [serObj, serStr]
        rw [harg]
        simp only [parseFieldsV]
        rw [skipWs_cons_not _ (by decide : isWsC '"' = false)]
        simp only [parseStr_ser]
        rw [skipWs_cons_not _ (by decide : isWsC ':' = false)]
        simp only [rt_val v f _ hb (numStop_rcub rest)]
        simp [skipWsC, isWsC]
  | (k, v), f2 :: fs2, fuel, rest, hf => by
      cases fuel with
      | zero => exact absurd hf (Nat.not_lt_zero _)
      | succ f =>
        have hlenv := serVal_len_pos v
        have hb1 : (serVal v).length < f := by
          simp only [serObj, serStr, List.length_cons, List.length_append] at hf
          omega
        have hb2 : (serObj (f2 :: fs2)).length + 1 < f := by
          simp only [serObj, serStr, List.length_cons, List.length_append] at hf
          omega
        have harg : serObj ((k, v) :: f2 :: fs2) ++ '}' :: rest
            = '"' :: (k.flatMap escChar ++ '"' :: (':' :: (serVal v
                ++ ',' :: (serObj (f2 :: fs2) ++ '}' :: rest)))) := by
          simp [serObj, serStr, List.append_assoc]
        rw [harg]
        simp only [parseFieldsV]
        rw [skipWs_cons_not _ (by decide : isWsC '"' = false)]
        simp only [parseStr_ser]
        rw [skipWs_cons_not _ (by decide : isWsC ':' = false)]
        simp only [rt_val v f _ hb1 (numStop_comma _)]
        simp only [skipWs_cons_not _ (by decide : isWsC ',' = false)]
        simp only [rt_obj f2 fs2 f rest hb2]
end

theorem from_str_serVal (v : Value) : from_str (serVal v) = some v := by
  have h := rt_val v ((serVal v).length + 1) [] (by omega) trivial
  rw [List.append_nil] at h
  simp [from_str, h, skipWsC]

/-! ### UTF-8 round trip -/

theorem utf8EncChar_shape (c : Char) :
    ∃ b t, utf8EncChar c = b :: t := by
  simp only [utf8EncChar]
  split_ifs <;> exact ⟨_, _, rfl⟩

theorem utf8DecOne_enc (c : Char) (r : List Nat) :
    utf8DecOne (utf8EncChar c ++ r) = some (c, r) := by
  have hv := char_valid_cases c
  have hub : c.toNat < 0x110000 := by omega
  by_cases h1 : c.toNat < 0x80
  · have henc : utf8EncChar c = [c.toNat] := by simp [utf8EncChar, h1]
    rw [henc]
    simp only [List.cons_append, List.nil_append, utf8DecOne]
    rw [if_pos h1, Char.ofNat_toNat]
  · by_cases h2 : c.toNat < 0x800
    · have henc : utf8EncChar c = [0xC0 + c.toNat / 64, 0x80 + c.toNat % 64] := by
        simp [utf8EncChar, h1, h2]
      rw [henc]
      simp only [List.cons_append, List.nil_append, utf8DecOne]
      rw [if_neg (by omega), if_neg (by omega), if_pos (by omega)]
      rw [if_pos (by simp [contB]; omega)]
      rw [show (0xC0 + c.toNat / 64 - 0xC0) * 64 + (0x80 + c.toNat % 64 - 0x80)
          = c.toNat from by omega]
      rw [Char.ofNat_toNat]
    · by_cases h3 : c.toNat < 0x10000
      · have henc : utf8EncChar c
            = [0xE0 + c.toNat / 4096, 0x80 + c.toNat / 64 % 64, 0x80 + c.toNat % 64] := by
          simp [utf8EncChar, h1, h2, h3]
        rw [henc]
        simp only [List.cons_append, List.nil_append, utf8DecOne]
        rw [if_neg (by omega), if_neg (by omega), if_neg (by omega), if_pos (by omega)]
        rw [show (0xE0 + c.toNat / 4096 - 0xE0) * 4096
            + (0x80 + c.toNat / 64 % 64 - 0x80) * 64 + (0x80 + c.toNat % 64 - 0x80)
            = c.toNat from by omega]
        rw [if_pos (by simp [contB]; omega)]
        rw [Char.ofNat_toNat]
      · have henc : utf8EncChar c
            = [0xF0 + c.toNat / 262144, 0x80 + c.toNat / 4096 % 64,
               0x80 + c.toNat / 64 % 64, 0x80 + c.toNat % 64] := by
          simp [utf8EncChar, h1, h2, h3]
        rw [henc]
        simp only [List.cons_append, List.nil_append, utf8DecOne]
        rw [if_neg (by omega), if_neg (by omega), if_neg (by omega), if_neg (by omega),
          if_pos (by omega)]
        rw [show (0xF0 + c.toNat / 262144 - 0xF0) * 262144
            + (0x80 + c.toNat / 4096 % 64 - 0x80) * 4096
            + (0x80 + c.toNat / 64 % 64 - 0x80) * 64 + (0x80 + c.toNat % 64 - 0x80)
            = c.toNat from by omega]
        rw [if_pos (by simp [contB]; omega)]
        rw [Char.ofNat_toNat]

theorem utf8DecGo_enc : ∀ (s : List Char) (f : Nat),
    (utf8Enc s).length ≤ f → utf8DecGo f (utf8Enc s) = some s
  | [], f, _ => by
      simp [utf8Enc, utf8DecGo]
  | c :: cs, f, hf => by
      obtain ⟨b0, bt, hb⟩ := utf8EncChar_shape c
      have hcons : utf8Enc (c :: cs) = utf8EncChar c ++ utf8Enc cs := by
        simp [utf8Enc]
      have hlen : 1 ≤ (utf8EncChar c).length := by simp [hb]
      have hlen2 : (utf8Enc (c :: cs)).length
          = (utf8EncChar c).length + (utf8Enc cs).length := by
        simp [hcons]
      obtain ⟨f1, rfl⟩ : ∃ f1, f = f1 + 1 := ⟨f - 1, by omega⟩
      rw [hcons, hb, List.cons_append]
      simp only [utf8DecGo]
      rw [← List.cons_append, ← hb, utf8DecOne_enc c (utf8Enc cs)]
      simp only [utf8DecGo_enc cs f1 (by omega)]

theorem utf8Dec_enc (s : List Char) : utf8Dec (utf8Enc s) = some s :=
  utf8DecGo_enc s _ le_rfl

theorem from_slice_ser (v : Value) : from_slice (utf8Enc (serVal v)) = some v := by
  simp [from_slice, utf8Dec_enc, from_str_serVal]

/-! ### Framing: the reader's unframing inverts `send_raw`'s framing -/

theorem readLineB_no_nl : ∀ (l : List Nat), (∀ b ∈ l, b ≠ 10) → ∀ r : List Nat,
    readLineB (l ++ 10 :: r) = some (l ++ [10], r)
  | [], _ => by
      intro r
      simp [readLineB]
  | b :: l, h => by
      intro r
      have hb : b ≠ 10 := h b (by simp)
      have ih := readLineB_no_nl l (fun x hx => h x (by simp [hx])) r
      simp [readLineB, hb, ih]

theorem dropPre_self : ∀ (p s : List Nat), dropPre p (p ++ s) = some s
  | [], s => rfl
  | b :: p, s => by simp [dropPre, dropPre_self p s]

theorem digitBytes_range (n : Nat) :
    ∀ b ∈ (natChars n).map Char.toNat, 48 ≤ b ∧ b ≤ 57 := by
  intro b hb
  simp only [natChars, List.map_map, List.mem_map] at hb
  obtain ⟨d, hd, rfl⟩ := hb
  have hlt := natDigs_all_lt n d hd
  simp [Function.comp, digChar_toNat d hlt]
  omega

theorem clHeader_no_nl : ∀ b ∈ clHeader, b ≠ 10 := by decide

theorem clHeader_head : ∃ t, clHeader = 67 :: t := by
  refine ⟨clHeader.tail, ?_⟩
  decide

theorem trimB_wrap (a : Nat) (mid : List Nat) (b : Nat)
    (ha : isWsB a = false) (hb : isWsB b = false) :
    trimB ((a :: (mid ++ [b])) ++ [13, 10]) = a :: (mid ++ [b]) := by
  have hleft : ((a :: (mid ++ [b])) ++ [13, 10]).dropWhile isWsB
      = (a :: (mid ++ [b])) ++ [13, 10] := by
    rw [List.cons_append, List.dropWhile_cons_of_neg (by simp [ha])]
  have hrev : ((a :: (mid ++ [b])) ++ [13, 10]).reverse
      = 10 :: 13 :: (b :: (mid.reverse ++ [a])) := by
    simp
  have hdrop2 : (10 :: 13 :: (b :: (mid.reverse ++ [a]))).dropWhile isWsB
      = b :: (mid.reverse ++ [a]) := by
    rw [List.dropWhile_cons_of_pos (by simp [isWsB]),
      List.dropWhile_cons_of_pos (by simp [isWsB]),
      List.dropWhile_cons_of_neg (by simp [hb])]
  rw [trimB, hleft, hrev, hdrop2]
  simp

theorem trimB_crlf : trimB [13, 10] = [] := by decide

theorem parseUsize_digits (n : Nat) :
    parseUsize ((natChars n).map Char.toNat) = some n := by
  obtain ⟨d0, t0, hnat, hd0lt, _⟩ := natChars_cons n
  have hform : (natChars n).map Char.toNat = (48 + d0) :: t0.map Char.toNat := by
    rw [hnat]
    simp [digChar_toNat d0 hd0lt]
  have hall : ∀ b ∈ (natChars n).map Char.toNat, (48 ≤ b && b ≤ 57) = true := by
    intro b hb
    have := digitBytes_range n b hb
    simp
    omega
  have hne : (natChars n).map Char.toNat ≠ [] := by simp [hform]
  have hsub : ((natChars n).map Char.toNat).map (· - 48) = natDigs n := by
    simp only [natChars, List.map_map]
    rw [List.map_congr_left (fun d hd => ?_), List.map_id]
    have := natDigs_all_lt n d hd
    simp [Function.comp, digChar_toNat d this]
  rw [hform] at hall hne hsub ⊢
  have h43 : 48 + d0 ≠ 43 := by omega
  simp [parseUsize, h43, List.all_eq_true.mpr hall, hsub, digitsVal_natDigs]

theorem headerLoop_frame (f cl0 n : Nat) (x : List Nat) :
    headerLoop (f + 2) cl0
      (clHeader ++ (natChars n).map Char.toNat ++ 13 :: 10 :: 13 :: 10 :: x)
      = some (n, x) := by
  obtain ⟨clt, hclt⟩ := clHeader_head
  have hline1 : ∀ b ∈ clHeader ++ (natChars n).map Char.toNat ++ [13], b ≠ 10 := by
    intro b hb
    simp only [List.mem_append, List.mem_singleton] at hb
    rcases hb with (hb | hb) | rfl
    · exact clHeader_no_nl b hb
    · have := digitBytes_range n b hb; omega
    · omega
  have harr : clHeader ++ (natChars n).map Char.toNat ++ 13 :: 10 :: 13 :: 10 :: x
      = (clHeader ++ (natChars n).map Char.toNat ++ [13])
        ++ 10 :: (13 :: 10 :: x) := by
    simp
  obtain ⟨d0, t0, hnat, hd0lt, _⟩ := natChars_cons n
  obtain ⟨mid, bl, hmideq, hbl⟩ :
      ∃ mid bl, clHeader ++ (natChars n).map Char.toNat = 67 :: (mid ++ [bl])
        ∧ isWsB bl = false := by
    rcases List.eq_nil_or_concat ((natChars n).map Char.toNat) with hnil | ⟨ds, b1, hc⟩
    · exact absurd hnil (by simp [hnat])
    · refine ⟨clt ++ ds, b1, ?_, ?_⟩
      · rw [hclt, hc]
        simp [List.concat_eq_append]
      · have hbr : b1 ∈ (natChars n).map Char.toNat := by
          rw [hc]; simp [List.concat_eq_append]
        have := digitBytes_range n b1 hbr
        simp [isWsB]
        omega
  have htrim : trimB ((clHeader ++ (natChars n).map Char.toNat ++ [13]) ++ [10])
      = clHeader ++ (natChars n).map Char.toNat := by
    rw [show (clHeader ++ (natChars n).map Char.toNat ++ [13]) ++ [10]
        = (67 :: (mid ++ [bl])) ++ [13, 10] from by rw [hmideq]; simp]
    rw [trimB_wrap 67 mid bl (by decide) hbl, ← hmideq]
  have hemp : (clHeader ++ (natChars n).map Char.toNat).isEmpty = false := by
    rw [hmideq]; rfl
  have hline2 : readLineB (13 :: 10 :: x) = some ([13, 10], x) := by
    simp [readLineB]
  rw [harr]
  simp only [headerLoop]
  rw [readLineB_no_nl _ hline1 _]
  simp only [htrim, hemp, Bool.false_eq_true, if_false, dropPre_self,
    parseUsize_digits, Option.getD_some]
  simp only [headerLoop, hline2, trimB_crlf, List.isEmpty_nil, if_true]

theorem recv_frame (body rest : List Nat) (v : Value) (hb : 0 < body.length)
    (hparse : from_slice body = some v) :
    receive_one (frameMsg body ++ rest) = some (v, rest) := by
  have hshape : frameMsg body ++ rest
      = clHeader ++ (natChars body.length).map Char.toNat
        ++ 13 :: 10 :: 13 :: 10 :: (body ++ rest) := by
    simp [frameMsg, List.append_assoc]
  obtain ⟨g, hg⟩ : ∃ g, (frameMsg body ++ rest).length = g + 1 := by
    refine ⟨(frameMsg body ++ rest).length - 1, ?_⟩
    have h1 : 0 < (frameMsg body ++ rest).length := by
      rw [hshape]
      simp [clHeader]
    omega
  rw [receive_one, hg]
  simp only [recvLoop]
  rw [hg, show g + 1 + 1 = g + 2 from rfl, hshape,
    headerLoop_frame g 0 body.length (body ++ rest)]
  have hle : body.length ≤ (body ++ rest).length := by simp
  simp only [if_neg (show ¬body.length = 0 from by omega), if_pos hle,
    List.take_left, List.drop_left, hparse]

/-- C3 helper: every id handed out from state `st` is at least `st.next_id`. -/
theorem runOps_lb : ∀ (ops : List LspOp) (st : ClientSt),
    ∀ x ∈ (runOps st ops).1, st.next_id ≤ x
  | [], _ => by simp [runOps]
  | op :: ops, st => by
      intro x hx
      have ih := runOps_lb ops { next_id := st.next_id + 1 }
      cases op <;>
        simp only [runOps, runOp, send_request, List.mem_cons] at hx <;>
        (rcases hx with rfl | hx
         · omega
         · have := ih x hx; simp at this; omega)

/-- C3 helper: the ids of one run form a strictly increasing chain. -/
theorem runOps_chain : ∀ (ops : List LspOp) (st : ClientSt),
    List.Chain' (· < ·) (runOps st ops).1
  | [], _ => by simp [runOps]
  | op :: ops, st => by
      have ih := runOps_chain ops { next_id := st.next_id + 1 }
      have lb := runOps_lb ops { next_id := st.next_id + 1 }
      cases op <;>
        (simp only [runOps, runOp, send_request]
         refine List.chain'_cons'.mpr ⟨?_, ih⟩
         intro y hy
         have hmem : y ∈ (runOps { next_id := st.next_id + 1 } ops).1 :=
           List.mem_of_mem_head? hy
         have := lb y hmem
         simp at this; omega)

/-- C1: framing round trip — for every JSON value (well-formed in the sense
of `serde_json`'s sorted object maps, numbers integral, strings arbitrary
Unicode, nesting arbitrary), emitting it with the sender's framing
(`serialize; write Content-Length: n CRLF CRLF body`, `n` the body's byte
length) and reading one message back with the reader thread's unframing
(header lines to a blank line, then exactly `Content-Length` bytes, parsed
as JSON) yields the value again, leaving the rest of the stream intact. -/
theorem claim_C1_framing_round_trip :
    ∀ (v : Value) (rest : List Nat), v.wf = true →
      receive_one (sendBytes v ++ rest) = some (v, rest) := by
  intro v rest _
  have hb : 0 < (utf8Enc (serVal v)).length := by
    obtain ⟨c, t, hser, _⟩ := serVal_head v
    obtain ⟨b0, bt, hb0⟩ := utf8EncChar_shape c
    rw [hser]
    simp [utf8Enc, hb0]
  exact recv_frame _ rest v hb (from_slice_ser v)

/-- C1 witness: the nested unicode payload, framed and read back. -/
theorem claim_C1_witness :
    receive_one (sendBytes c1TestVal ++ [0]) = some (c1TestVal, [0]) :=
  claim_C1_framing_round_trip c1TestVal [0] (by decide)

/-- C2: a response inserted under id `idN` is handed out by the first
`get_response(idN)`, a second call returns nothing (the entry is removed on
retrieval), and retrieval leaves every other id's entry unchanged. -/
theorem claim_C2_response_single_consumption :
    ∀ (m : Registry) (idN : Int) (v : Value),
      (get_response (regInsert m idN v) idN).1 = some v
      ∧ (get_response ((get_response (regInsert m idN v) idN).2) idN).1 = none
      ∧ ∀ k : Int, k ≠ idN →
          (get_response (regInsert m idN v) idN).2 k = regInsert m idN v k := by
  intro m idN v
  refine ⟨by simp [get_response, regInsert], by simp [get_response, regInsert], ?_⟩
  intro k hk
  simp [get_response, regInsert, hk]

/-- C2 witness: concrete registry, id 3. -/
theorem claim_C2_witness :
    (get_response (regInsert (fun _ => none) 3 .null) 3).1 = some .null
    ∧ (get_response ((get_response (regInsert (fun _ => none) 3 .null) 3).2) 3).1 = none
    ∧ (get_response (regInsert (fun _ => none) 3 .null) 3).2 0
        = regInsert (fun _ => none) 3 .null 0 :=
  ⟨(claim_C2_response_single_consumption (fun _ => none) 3 .null).1,
   (claim_C2_response_single_consumption (fun _ => none) 3 .null).2.1,
   (claim_C2_response_single_consumption (fun _ => none) 3 .null).2.2 0 (by decide)⟩

/-- C3: over any sequence of request-sending operations of one session, the
returned ids are strictly increasing, and no id is handed out twice. -/
theorem claim_C3_ids_strictly_increasing :
    ∀ (st : ClientSt) (ops : List LspOp),
      List.Chain' (· < ·) (runOps st ops).1 ∧ (runOps st ops).1.Nodup := by
  intro st ops
  have hchain := runOps_chain ops st
  have hpair : (runOps st ops).1.Pairwise (· < ·) :=
    List.chain'_iff_pairwise.mp hchain
  exact ⟨hchain, hpair.imp ne_of_lt⟩

/-- C4: the apply scenario — the protocol insert text `println!($0)` parses
with its tab-stop marker stripped to `println!()`; applying over prefix
`pri` at cursor 11 of `let x = pri` deletes the 3 prefix characters,
inserts the 10 inserted characters, and moves the cursor to 8 + 10 = 18. -/
theorem claim_C4_apply_scenario :
    parse_completions c4Response
      = [{ label := "println!".toList, detail := none, kind := ['?'],
           insert_text := "println!()".toList, raw := c4Item }]
    ∧ applyCompletionEdit ("let x = pri".toList) 11 ("pri".toList) ("println!()".toList)
        = ("let x = println!()".toList, 18)
    ∧ ("pri".toList).length = 3
    ∧ 18 = (11 - 3) + ("println!()".toList).length := by
  refine ⟨rfl, rfl, rfl, rfl⟩

/-- C5: the stale-resolve guard — a resolve reply whose stored tag carries a
selection index other than the current one leaves the state untouched; in
particular, once the selection has moved away (either direction) from the
index a pending resolve was tagged with, that reply's arrival changes
nothing. -/
theorem claim_C5_stale_resolve_guard :
    (∀ (s : CompletionState) (rid : Int) (idx : Nat) (d : List Char),
        s.resolve_id = some (rid, idx) → idx ≠ s.selected →
        applyResolveReply s rid d = s)
    ∧ (∀ (s : CompletionState) (rid : Int) (d : List Char),
        s.resolve_id = some (rid, s.selected) →
        (s.move_down).selected ≠ s.selected →
        applyResolveReply (s.move_down) rid d = s.move_down)
    ∧ (∀ (s : CompletionState) (rid : Int) (d : List Char),
        s.resolve_id = some (rid, s.selected) →
        (s.move_up).selected ≠ s.selected →
        applyResolveReply (s.move_up) rid d = s.move_up) := by
  have base : ∀ (s : CompletionState) (rid : Int) (idx : Nat) (d : List Char),
      s.resolve_id = some (rid, idx) → idx ≠ s.selected →
      applyResolveReply s rid d = s := by
    intro s rid idx d h hne
    simp only [applyResolveReply, h]
    rw [if_neg]
    intro hc
    exact hne hc.2
  refine ⟨base, ?_, ?_⟩
  · intro s rid d h hne
    have hres : (s.move_down).resolve_id = some (rid, s.selected) := by
      simp only [CompletionState.move_down]
      split <;> simpa using h
    exact base _ rid s.selected d hres (fun hh => hne hh.symm)
  · intro s rid d h hne
    have hres : (s.move_up).resolve_id = some (rid, s.selected) := by
      simp only [CompletionState.move_up]
      split <;> simpa using h
    exact base _ rid s.selected d hres (fun hh => hne hh.symm)

/-- C5 witness: two items, resolve tagged with index 0, selection moved to 1
by `move_down`; the reply's arrival leaves the state unchanged. -/
theorem claim_C5_witness :
    applyResolveReply (c5TestSt.move_down) 7 ("docs".toList) = c5TestSt.move_down :=
  claim_C5_stale_resolve_guard.2.1 c5TestSt 7 ("docs".toList) rfl (by decide)

/-- C6: typed-ahead filtering retains exactly the items whose label or insert
text matches the lowercased run; an empty result collapses to the cleared
state; otherwise the prior selection is clamped by `min` to the last valid
index.  Concretely, `["foo","bar","foobar"]` under `"foo"` keeps
`["foo","foobar"]`, and a prior selection 5 clamps to 1. -/
theorem claim_C6_filter :
    (∀ (s : CompletionState) (p : List Char),
      (s.filter p).items
        = s.items.filter (CompletionState.keepItem (CompletionState.lowerStr p))
      ∧ (s.items.filter (CompletionState.keepItem (CompletionState.lowerStr p)) = [] →
          s.filter p = s.clear)
      ∧ (s.items.filter (CompletionState.keepItem (CompletionState.lowerStr p)) ≠ [] →
          (s.filter p).selected
            = min s.selected
                ((s.items.filter
                    (CompletionState.keepItem (CompletionState.lowerStr p))).length - 1)
          ∧ (s.filter p).pfx = p))
    ∧ ((testCompletionSt 0).filter ("foo".toList)).items
        = [mkItem ("foo".toList), mkItem ("foobar".toList)]
    ∧ ((testCompletionSt 5).filter ("foo".toList)).selected = 1 := by
  refine ⟨?_, rfl, rfl⟩
  intro s p
  refine ⟨?_, ?_, ?_⟩
  · simp only [CompletionState.filter]
    split <;> simp_all [CompletionState.clear, List.isEmpty_iff]
  · intro h
    simp [CompletionState.filter, h, CompletionState.clear]
  · intro h
    simp [CompletionState.filter, List.isEmpty_iff, h]

/-- C6 witness: the empty-result collapse and the clamp, at concrete states. -/
theorem claim_C6_witness :
    (testCompletionSt 0).filter ("zzz".toList) = (testCompletionSt 0).clear
    ∧ ((testCompletionSt 5).filter ("foo".toList)).selected
        = min 5 (((testCompletionSt 5).items.filter
            (CompletionState.keepItem (CompletionState.lowerStr ("foo".toList)))).length - 1) :=
  ⟨(claim_C6_filter.1 (testCompletionSt 0) ("zzz".toList)).2.1 rfl,
   ((claim_C6_filter.1 (testCompletionSt 5) ("foo".toList)).2.2
     (fun h => absurd (congrArg List.length h) (by decide))).1⟩

/-- C7/C8 helper: a record whose primary span resolves (join + canonicalize)
to the edited file is kept whatever its severity, with `line_start`
decremented (saturating) and `column_start` stored as reported. -/
theorem processRecord_span_hit (canon : List Char → Option (List Char))
    (target dir : List Char) (lvl : DiagnosticLevel) (msg f : List Char) (l c : Nat)
    (hres : canon (pathJoin dir f) = some target) :
    processRecord canon target (some dir) (diagRecord (levelStr lvl) msg (some f) l c)
      = some ⟨lvl, msg, some (l - 1), some c⟩ := by
  have hcheck : ((diagRecord (levelStr lvl) msg (some f) l c).getKey
      ("reason".toList)).bind Value.asStr = some ("compiler-message".toList) := rfl
  have hme : (diagRecord (levelStr lvl) msg (some f) l c).getKey ("message".toList)
      = some (diagMessageObj (levelStr lvl) msg (some f) l c) := rfl
  have hlev : recordLevel (diagMessageObj (levelStr lvl) msg (some f) l c)
      = some lvl := by
    cases lvl <;> rfl
  have hmsg : ((diagMessageObj (levelStr lvl) msg (some f) l c).getKey
      ("message".toList)).bind Value.asStr = some msg := rfl
  have hspan : recordSpan (diagMessageObj (levelStr lvl) msg (some f) l c)
      = some (spanObj f l c) := rfl
  have hfile : ((some (spanObj f l c)).bind
      (fun s => s.getKey ("file_name".toList))).bind Value.asStr = some f := rfl
  have hmatch : spanMatches canon target (some dir) lvl (some f) = true := by
    simp [spanMatches, hres]
  have hasU : ∀ n : Nat, Value.asU64 (.num (n : Int)) = some n := by
    intro n
    simp [Value.asU64]
  have hpos : recordPositions (some (spanObj f l c)) = (some l, some c) := by
    rw [recordPositions]
    rw [show (spanObj f l c).getKey ("line_start".toList) = some (.num l) from rfl]
    rw [show (spanObj f l c).getKey ("column_start".toList) = some (.num c) from rfl]
    simp only [Option.some_bind, hasU]
  rw [processRecord, hcheck, if_neg (fun h => h rfl)]
  simp only [hme]
  simp only [hlev]
  simp only [hspan, hmsg, hfile, hmatch, hpos]
  simp only [Bool.not_true, Bool.false_eq_true, if_false, Option.getD_some,
    Option.map_some']

/-- C7/C8 helper: a span-less warning record is dropped. -/
theorem processRecord_nospan_warning (canon : List Char → Option (List Char))
    (target : List Char) (dir : Option (List Char)) (msg : List Char) (l c : Nat) :
    processRecord canon target dir (diagRecord (levelStr .warning) msg none l c)
      = none := by
  have hcheck : ((diagRecord (levelStr .warning) msg none l c).getKey
      ("reason".toList)).bind Value.asStr = some ("compiler-message".toList) := rfl
  have hme : (diagRecord (levelStr .warning) msg none l c).getKey ("message".toList)
      = some (diagMessageObj (levelStr .warning) msg none l c) := rfl
  have hlev : recordLevel (diagMessageObj (levelStr .warning) msg none l c)
      = some DiagnosticLevel.warning := rfl
  have hspan : recordSpan (diagMessageObj (levelStr .warning) msg none l c)
      = none := rfl
  have hmatch : spanMatches canon target dir DiagnosticLevel.warning none = false := rfl
  rw [processRecord, hcheck, if_neg (fun h => h rfl)]
  simp only [hme]
  simp only [hlev]
  simp only [hspan, Option.none_bind, hmatch]
  simp only [Bool.not_false, if_true]

/-- C7/C8 helper: a span-less error record is kept, with no location. -/
theorem processRecord_nospan_error (canon : List Char → Option (List Char))
    (target : List Char) (dir : Option (List Char)) (msg : List Char) (l c : Nat) :
    processRecord canon target dir (diagRecord (levelStr .error) msg none l c)
      = some ⟨.error, msg, none, none⟩ := by
  have hcheck : ((diagRecord (levelStr .error) msg none l c).getKey
      ("reason".toList)).bind Value.asStr = some ("compiler-message".toList) := rfl
  have hme : (diagRecord (levelStr .error) msg none l c).getKey ("message".toList)
      = some (diagMessageObj (levelStr .error) msg none l c) := rfl
  have hlev : recordLevel (diagMessageObj (levelStr .error) msg none l c)
      = some DiagnosticLevel.error := rfl
  have hmsg : ((diagMessageObj (levelStr .error) msg none l c).getKey
      ("message".toList)).bind Value.asStr = some msg := rfl
  have hspan : recordSpan (diagMessageObj (levelStr .error) msg none l c)
      = none := rfl
  have hmatch : spanMatches canon target dir DiagnosticLevel.error none = true := rfl
  have hpos : recordPositions none = (none, none) := rfl
  rw [processRecord, hcheck, if_neg (fun h => h rfl)]
  simp only [hme]
  simp only [hlev]
  simp only [hspan, hmsg, Option.none_bind, hmatch, hpos]
  simp only [Bool.not_true, Bool.false_eq_true, if_false, Option.getD_some,
    Option.map_none']

/-- C7: diagnostics filtering — a record whose primary span resolves to the
edited file is kept for both severities; a record with no span is kept when
its severity is error and dropped when warning; and the concrete two-record
output (one span record resolving to the file, one span-less warning)
yields exactly the first diagnostic, for either severity of the first. -/
theorem claim_C7_diagnostics_filtering :
    (∀ (canon : List Char → Option (List Char)) (target dir : List Char)
        (lvl : DiagnosticLevel) (msg f : List Char) (l c : Nat),
      canon (pathJoin dir f) = some target →
      processRecord canon target (some dir) (diagRecord (levelStr lvl) msg (some f) l c)
        = some ⟨lvl, msg, some (l - 1), some c⟩)
    ∧ (∀ (canon : List Char → Option (List Char)) (target : List Char)
        (dir : Option (List Char)) (msg : List Char) (l c : Nat),
      processRecord canon target dir (diagRecord (levelStr .warning) msg none l c)
        = none)
    ∧ (∀ (canon : List Char → Option (List Char)) (target : List Char)
        (dir : Option (List Char)) (msg : List Char) (l c : Nat),
      processRecord canon target dir (diagRecord (levelStr .error) msg none l c)
        = some ⟨.error, msg, none, none⟩)
    ∧ parse_diagnostics c7canon (c7output ("error".toList)) c7target (some c7dir)
        = [⟨.error, "m1".toList, some 4, some 3⟩]
    ∧ parse_diagnostics c7canon (c7output ("warning".toList)) c7target (some c7dir)
        = [⟨.warning, "m1".toList, some 4, some 3⟩] :=
  ⟨processRecord_span_hit, processRecord_nospan_warning, processRecord_nospan_error,
   by set_option maxRecDepth 100000 in decide,
   by set_option maxRecDepth 100000 in decide⟩

/-- C7 witness: the span-resolving record at severity warning, with the
concrete canonicalize model. -/
theorem claim_C7_witness :
    processRecord c7canon c7target (some c7dir)
        (diagRecord (levelStr .warning) ("m1".toList) (some ("src/main.rs".toList)) 5 3)
      = some ⟨.warning, "m1".toList, some 4, some 3⟩ :=
  claim_C7_diagnostics_filtering.1 c7canon c7target c7dir .warning ("m1".toList)
    ("src/main.rs".toList) 5 3 (by decide)

/-- C8 counterexample: the tool reported `line_start 5, column_start 3`; the
stored diagnostic carries line `some 4` (decremented) but column `some 3`
(not decremented to 2), so the claim that both positions are converted to
0-based fails. -/
theorem claim_C8_counterexample :
    (parse_diagnostics c7canon (c7output ("error".toList)) c7target (some c7dir)).map
        (fun d => (d.line, d.column))
      = [(some 4, some 3)]
    ∧ some ((3 : Nat) - 1) ≠ some (3 : Nat) :=
  ⟨by set_option maxRecDepth 100000 in decide, by decide⟩

/-- C8 (amended): a kept span record stores `line_start` decremented by one
(saturating, so 0-based) and `column_start` exactly as the tool reported it
(1-based); a span-less kept record stores no positions at all. -/
theorem claim_C8_positions :
    (∀ (canon : List Char → Option (List Char)) (target dir : List Char)
        (lvl : DiagnosticLevel) (msg f : List Char) (l c : Nat),
      canon (pathJoin dir f) = some target →
      processRecord canon target (some dir) (diagRecord (levelStr lvl) msg (some f) l c)
        = some ⟨lvl, msg, some (l - 1), some c⟩)
    ∧ (∀ (canon : List Char → Option (List Char)) (target : List Char)
        (dir : Option (List Char)) (msg : List Char) (l c : Nat),
      processRecord canon target dir (diagRecord (levelStr .error) msg none l c)
        = some ⟨.error, msg, none, none⟩) :=
  ⟨processRecord_span_hit, processRecord_nospan_error⟩

/-- C8 witness: the span record with `line_start 5, column_start 3` under the
concrete canonicalize model stores line 4 and column 3. -/
theorem claim_C8_witness :
    processRecord c7canon c7target (some c7dir)
        (diagRecord (levelStr .error) ("m1".toList) (some ("src/main.rs".toList)) 5 3)
      = some ⟨.error, "m1".toList, some 4, some 3⟩ :=
  claim_C8_positions.1 c7canon c7target c7dir .error ("m1".toList)
    ("src/main.rs".toList) 5 3 (by decide)

/-- C9: while a check is already running, `spawn_cargo_check` is a no-op:
no new work is started and the shared state is unchanged. -/
theorem claim_C9_spawn_idempotent_while_running :
    ∀ (s : DiagnosticState) (file : List Char),
      s.is_running = true → spawn_cargo_check s file = (s, none) := by
  intro s file h
  simp [spawn_cargo_check, h]

/-- C9 witness: concrete running state. -/
theorem claim_C9_witness :
    spawn_cargo_check { diagnostics := [], is_running := true } []
      = ({ diagnostics := [], is_running := true }, none) :=
  claim_C9_spawn_idempotent_while_running _ _ rfl

/-- C10: every `CompletionState` operation preserves "empty or selection in
range"; under it, `selected_item` is `some` whenever items exist, and the
moves on an empty list change nothing. -/
theorem claim_C10_selection_invariant :
    (CompletionState.new.items = []
      ∨ CompletionState.new.selected < CompletionState.new.items.length)
    ∧ ∀ s : CompletionState,
        (s.items = [] ∨ s.selected < s.items.length) →
        ((s.clear.items = [] ∨ s.clear.selected < s.clear.items.length)
         ∧ ((s.move_down).items = []
              ∨ (s.move_down).selected < (s.move_down).items.length)
         ∧ ((s.move_up).items = []
              ∨ (s.move_up).selected < (s.move_up).items.length)
         ∧ (∀ p, (s.filter p).items = []
              ∨ (s.filter p).selected < (s.filter p).items.length)
         ∧ (s.items ≠ [] → (s.selected_item).isSome = true)
         ∧ (s.items = [] → s.move_down = s ∧ s.move_up = s)) := by
  refine ⟨Or.inl rfl, ?_⟩
  intro s hinv
  refine ⟨Or.inl rfl, ?_, ?_, ?_, ?_, ?_⟩
  · by_cases hemp : s.items.isEmpty = true
    · have heq : s.move_down = s := by simp [CompletionState.move_down, hemp]
      rw [heq]; exact hinv
    · have hne : s.items ≠ [] := by simpa [List.isEmpty_iff] using hemp
      have hlen : 0 < s.items.length := List.length_pos.mpr hne
      have hsel : (s.move_down).selected = (s.selected + 1) % s.items.length := by
        simp [CompletionState.move_down, hemp]
      have hitems : (s.move_down).items = s.items := by
        simp [CompletionState.move_down, hemp]
      right
      rw [hsel, hitems]
      exact Nat.mod_lt _ hlen
  · by_cases hemp : s.items.isEmpty = true
    · have heq : s.move_up = s := by simp [CompletionState.move_up, hemp]
      rw [heq]; exact hinv
    · have hne : s.items ≠ [] := by simpa [List.isEmpty_iff] using hemp
      have hlen : 0 < s.items.length := List.length_pos.mpr hne
      have hselinv : s.selected < s.items.length := by
        rcases hinv with h | h
        · exact absurd h hne
        · exact h
      have hsel : (s.move_up).selected
          = (if s.selected = 0 then s.items.length - 1 else s.selected - 1) := by
        simp [CompletionState.move_up, hemp]
      have hitems : (s.move_up).items = s.items := by
        simp [CompletionState.move_up, hemp]
      right
      rw [hsel, hitems]
      split <;> omega
  · intro p
    simp only [CompletionState.filter]
    split
    · left; rfl
    · right
      rename_i hne
      have : 0 < (s.items.filter
          (CompletionState.keepItem (CompletionState.lowerStr p))).length := by
        rcases hk : s.items.filter (CompletionState.keepItem (CompletionState.lowerStr p)) with
          _ | ⟨a, t⟩
        · simp [hk] at hne
        · simp
      simpa using by omega
  · intro hne
    have hsel : s.selected < s.items.length := by
      rcases hinv with h | h
      · exact absurd h hne
      · exact h
    simp [CompletionState.selected_item, List.getElem?_eq_getElem hsel]
  · intro hemp
    constructor <;> simp [CompletionState.move_down, CompletionState.move_up, hemp]

/-- C10 witness: the invariant consequences at the concrete three-item state. -/
theorem claim_C10_witness :
    ((testCompletionSt 0).move_down.items = []
      ∨ (testCompletionSt 0).move_down.selected < (testCompletionSt 0).move_down.items.length)
    ∧ (testCompletionSt 0).selected_item.isSome = true :=
  ⟨(claim_C10_selection_invariant.2 (testCompletionSt 0) (Or.inr (by decide))).2.1,
   (claim_C10_selection_invariant.2 (testCompletionSt 0) (Or.inr (by decide))).2.2.2.2.1
     (by simp [testCompletionSt])⟩

end Editor
